import Mathlib

/-!
Shallow embedding of the wdm-simulator lock engine (wdmsim), verifying the
behavioral claims of its specification.  Wavelengths (Python floats) are
modelled as rationals; Python dicts as insertion-ordered association lists;
Python sets of voltage codes as duplicate-free lists; Python `sorted`
(a stable sort) as Mathlib's stable `List.insertionSort`.
-/

namespace WdmSim

/-! ### Python `sorted` with a key -/

/-- Python's `sorted(l, key=k)`: a stable sort comparing keys.  `List.insertionSort`
with the key relation is stable in the same sense as Python's sort. -/
def sortByKey {α β : Type} [LinearOrder β] (k : α → β) (l : List α) : List α :=
  l.insertionSort (fun x y => k x ≤ k y)

/-! ### Python `dict` as an insertion-ordered association list -/

/-- `d[k]` lookup; `none` when the key is absent. -/
def dictLookup {κ ν : Type} [DecidableEq κ] : List (κ × ν) → κ → Option ν
  | [], _ => none
  | (a, b) :: t, k => if a = k then some b else dictLookup t k

/-- `d[k] = v` assignment: an existing key keeps its position, a new key is
appended at the end (CPython dict insertion-order semantics). -/
def dictUpdate {κ ν : Type} [DecidableEq κ] : List (κ × ν) → κ → ν → List (κ × ν)
  | [], k, v => [(k, v)]
  | (a, b) :: t, k, v => if a = k then (k, v) :: t else (a, b) :: dictUpdate t k v

/-! ### OpticalWave (src/wdmsim/models/optical_wave.py)

`OpticalWave.__init__` normalizes its argument: `None` becomes `[]`, then the
list is stored as `sorted(wavelengths)`.  So the `wavelengths` attribute is
always a Python list (never `None`). -/

/-- `OpticalWave.__init__`: `sorted(wavelengths)` (duplicates are kept). -/
def pySorted (l : List ℚ) : List ℚ := sortByKey id l

/-- `OpticalWave.filter_by_wavelength(w, invert=True)`:
`OpticalWave(set(self.wavelengths) - set([w]))`, i.e. the ascending sorted list
of the distinct wavelengths with `w` removed. -/
def filter_by_wavelength_invert (l : List ℚ) (w : ℚ) : List ℚ :=
  sortByKey id (l.dedup.filter (fun x => decide (x ≠ w)))

/-- `OpticalWave.filter_by_wave_idx(i, invert=True)`:
`OpticalWave(set(self.wavelengths) - set([self.wavelengths[i]]))`. -/
def filter_by_wave_idx_invert (l : List ℚ) (i : ℕ) : List ℚ :=
  filter_by_wavelength_invert l (l.getD i 0)

/-! ### RingRxWDM (src/wdmsim/models/ring_row.py)

A ring slice: immutable physical parameters, the `in`/`thru` port waves, and
the mutable `curr_wavelength` dial.  Ports hold plain wavelength lists.  The
upstream connection's wave is passed explicitly as `conn` (in the row, slice 0
is connected to the laser grid OUT and slice i to slice i-1's THRU). -/

structure RingRxWDM where
  wavelength : ℚ
  fsr : ℚ
  tuning_range : ℚ
  wavesIn : List ℚ
  wavesThru : List ℚ
  curr_wavelength : ℚ
  deriving DecidableEq

/-- `RingRxWDM.__init__`: ports start with empty waves and
`curr_wavelength = wavelength` (the design resonance). -/
def mkRingRxWDM (wavelength fsr tuning_range : ℚ) : RingRxWDM :=
  ⟨wavelength, fsr, tuning_range, [], [], wavelength⟩

/-- `RingRxWDM.passthrough_wave`: copy the connection's wave into IN, then
THRU := IN unfiltered. -/
def RingRxWDM.passthrough_wave (r : RingRxWDM) (conn : List ℚ) : RingRxWDM :=
  { r with wavesIn := conn, wavesThru := conn }

/-- `RingRxWDM.propagate_wave`: copy the connection's wave into IN, then
THRU := IN.filter_by_wavelength(curr_wavelength, invert=True).  Note the filter
is applied unconditionally, tuned or not. -/
def RingRxWDM.propagate_wave (r : RingRxWDM) (conn : List ℚ) : RingRxWDM :=
  { r with wavesIn := conn,
           wavesThru := filter_by_wavelength_invert conn r.curr_wavelength }

/-- `RingRxWDM.acquire_lock_by_wave_idx`: THRU := IN filtered at `wave_idx`
(inverted), and `curr_wavelength := IN[wave_idx]`. -/
def RingRxWDM.acquire_lock_by_wave_idx (r : RingRxWDM) (wave_idx : ℕ) : RingRxWDM :=
  { r with wavesThru := filter_by_wave_idx_invert r.wavesIn wave_idx,
           curr_wavelength := r.wavesIn.getD wave_idx 0 }

/-- `RingRxWDM.release_lock`: `passthrough_wave()` then
`reset_curr_wavelength()` (back to the design resonance). -/
def RingRxWDM.release_lock (r : RingRxWDM) (conn : List ℚ) : RingRxWDM :=
  { r.passthrough_wave conn with curr_wavelength := r.wavelength }

/-! ### Tuner (src/wdmsim/models/tuner.py) -/

/-- `Tuner.VDAC_FS = 2**8`. -/
def VDAC_FS : ℤ := 2 ^ 8

def SEARCH_DONE : ℕ := 0
def SEARCH_NOT_STARTED : ℕ := 1
def SEARCH_NO_WAVE : ℕ := 2
def SEARCH_NOT_IN_RANGE : ℕ := 3
def LOCK_DONE : ℕ := 4
def LOCK_NOT_STARTED : ℕ := 5
def LOCK_NO_WAVE : ℕ := 6
def LOCK_NOT_IN_RANGE : ℕ := 7

/-- Python `set.add`: the Python `set` of voltage codes is modelled as a
duplicate-free list. -/
def setAdd (s : List ℤ) (c : ℤ) : List ℤ := if c ∈ s then s else s ++ [c]

structure Tuner where
  search_table : List ℤ
  search_status : ℕ
  lock_status : ℕ
  lock_code : ℤ
  lock_code_prev : ℤ
  search_data : List (ℕ × ℤ)
  search_wavelength : List (ℕ × ℤ × ℚ)
  lock_data : List (ℕ × ℤ)
  lock_wavelength : Option ℚ
  deriving DecidableEq

/-- `Tuner.__init__` (and `hard_reset`). -/
def Tuner.init : Tuner :=
  ⟨[], SEARCH_NOT_STARTED, LOCK_NOT_STARTED, -1, -1, [], [], [], none⟩

instance : Inhabited Tuner := ⟨Tuner.init⟩

/-- `Tuner.soft_reset`: statuses and transient data cleared; `search_table`,
`lock_code` and `lock_code_prev` survive. -/
def Tuner.soft_reset (t : Tuner) : Tuner :=
  { t with search_status := SEARCH_NOT_STARTED, lock_status := LOCK_NOT_STARTED,
           search_data := [], search_wavelength := [], lock_data := [],
           lock_wavelength := none }

/-- Python `int()` applied to a rational: truncation toward zero.
(`Rat.floor` is used rather than `⌊·⌋` so that terms evaluate by kernel
reduction; the two agree — see `pyTrunc_eq_floor`.) -/
def pyTrunc (q : ℚ) : ℤ := if q < 0 then -(Rat.floor (-q)) else Rat.floor q

/-- `Tuner.get_sweep_range`: nine red-shift windows
`[wavelength + k*fsr, wavelength + k*fsr + tuning_range]`, k = -4..4,
written out literally as in the source. -/
def get_sweep_range (r : RingRxWDM) : List (ℚ × ℚ) :=
  [ (r.wavelength - 4 * r.fsr, r.wavelength - 4 * r.fsr + r.tuning_range),
    (r.wavelength - 3 * r.fsr, r.wavelength - 3 * r.fsr + r.tuning_range),
    (r.wavelength - 2 * r.fsr, r.wavelength - 2 * r.fsr + r.tuning_range),
    (r.wavelength - 1 * r.fsr, r.wavelength - 1 * r.fsr + r.tuning_range),
    (r.wavelength, r.wavelength + r.tuning_range),
    (r.wavelength + 1 * r.fsr, r.wavelength + 1 * r.fsr + r.tuning_range),
    (r.wavelength + 2 * r.fsr, r.wavelength + 2 * r.fsr + r.tuning_range),
    (r.wavelength + 3 * r.fsr, r.wavelength + 3 * r.fsr + r.tuning_range),
    (r.wavelength + 4 * r.fsr, r.wavelength + 4 * r.fsr + r.tuning_range) ]

/-- Embeds the guard `if waves.wavelengths is None` at the start of
`Tuner.search_lock`.  `OpticalWave.__init__` replaces `None` by `[]` and always
stores a list in `wavelengths`, so this identity test against Python `None` is
identically false — for an empty wave set included. -/
def wavelengthsIsPyNone (_waves : List ℚ) : Bool := false

/-- Accumulator of the search loop of `Tuner.search_lock`:
`search_table`, `search_data` and `_tmp_search_map`. -/
structure SearchAcc where
  table : List ℤ
  data : List (ℕ × ℤ)
  tmp : List (ℤ × ℚ)
  deriving DecidableEq

/-- The body of the inner loop of `Tuner.search_lock` for one wave
`(wave_idx, wavelength)` and one sweep window `(sweep[0], sweep[1])`. -/
def searchStep (acc : SearchAcc) (iw : ℕ × ℚ) (sw : ℚ × ℚ) : SearchAcc :=
  if sw.1 ≤ iw.2 ∧ iw.2 ≤ sw.2 then
    let voltage_code := pyTrunc ((iw.2 - sw.1) / (sw.2 - sw.1) * (VDAC_FS : ℚ))
    ⟨setAdd acc.table voltage_code,
     dictUpdate acc.data iw.1 voltage_code,
     dictUpdate acc.tmp voltage_code iw.2⟩
  else acc

/-- `Tuner.search_lock(ring)`: sweep all incoming waves over the sweep windows,
rebuilding `search_table`, `search_data`, `search_wavelength` and setting
`search_status`. -/
def Tuner.search_lock (t : Tuner) (r : RingRxWDM) : Tuner :=
  let sweep_range := get_sweep_range r
  let waves := r.wavesIn
  if wavelengthsIsPyNone waves then { t with search_status := SEARCH_NO_WAVE }
  else
    let acc := waves.enum.foldl
      (fun a iw => sweep_range.foldl (fun a2 sw => searchStep a2 iw sw) a)
      ⟨[], [], []⟩
    { t with
      search_table := acc.table
      search_data := acc.data
      search_wavelength :=
        ((sortByKey id acc.table).enum).map
          (fun pc => (pc.1, pc.2, (dictLookup acc.tmp pc.2).getD 0))
      search_status := if acc.data = [] then SEARCH_NOT_IN_RANGE else SEARCH_DONE }

/-- `find_lock_to_least_significant(tuner, select)`: sort `search_data` items by
voltage code ascending (stable) and take item `select`; `None` when `select` is
out of range. -/
def find_lock_to_least_significant (t : Tuner) (select : ℕ) : Option (ℕ × ℤ) :=
  if t.search_data.length ≤ select then none
  else (sortByKey (fun x => x.2) t.search_data).get? select

/-- `find_lock_to_nearest(tuner, select)`: first normalize
`lock_code_prev` to `int(0.5 * VDAC_FS)` when negative (this mutation sticks),
then sort items by `abs(code - lock_code_prev)` (stable) and take item
`select`.  Returns the updated tuner together with the result. -/
def find_lock_to_nearest (t : Tuner) (select : ℕ) : Tuner × Option (ℕ × ℤ) :=
  let t1 := if t.lock_code_prev < 0
            then { t with lock_code_prev := pyTrunc ((1 : ℚ) / 2 * (VDAC_FS : ℚ)) }
            else t
  (t1,
   if t1.search_data.length ≤ select then none
   else (sortByKey (fun x => |x.2 - t1.lock_code_prev|) t1.search_data).get? select)

/-- `find_lock_to_most_significant(tuner, select)`: sort by code ascending
(stable) and take item `len - 1 - select` (`sorted[-1-select]`). -/
def find_lock_to_most_significant (t : Tuner) (select : ℕ) : Option (ℕ × ℤ) :=
  if t.search_data.length ≤ select then none
  else (sortByKey (fun x => x.2) t.search_data).get? (t.search_data.length - 1 - select)

/-- `find_lock_to_middle(tuner, select)`: sort by `abs(code)` (stable) and take
item `select`. -/
def find_lock_to_middle (t : Tuner) (select : ℕ) : Option (ℕ × ℤ) :=
  if t.search_data.length ≤ select then none
  else (sortByKey (fun x => |x.2|) t.search_data).get? select

/-- The four lock modes accepted by `Tuner.acquire_lock`. -/
inductive Mode
  | least_significant
  | nearest
  | most_significant
  | middle
  deriving DecidableEq

/-- `Tuner.acquire_lock(ring, mode, select)`.  If search did not complete,
`lock_status` mirrors the search failure status and nothing else changes.
Otherwise the mode's policy picks an entry of `search_data` (or nothing, when
`select` is out of range, in which case the call returns with state unchanged
apart from the `nearest` `lock_code_prev` normalization). -/
def Tuner.acquire_lock (t : Tuner) (r : RingRxWDM) (mode : Mode) (select : ℕ) :
    Tuner × RingRxWDM :=
  if t.search_status ≠ SEARCH_DONE then
    (if t.search_status = SEARCH_NOT_STARTED then
       ({ t with lock_status := LOCK_NOT_STARTED }, r)
     else if t.search_status = SEARCH_NO_WAVE then
       ({ t with lock_status := LOCK_NO_WAVE }, r)
     else if t.search_status = SEARCH_NOT_IN_RANGE then
       ({ t with lock_status := LOCK_NOT_IN_RANGE }, r)
     else (t, r))
  else
    let step : Tuner × Option (ℕ × ℤ) :=
      match mode with
      | .least_significant => (t, find_lock_to_least_significant t select)
      | .nearest => find_lock_to_nearest t select
      | .most_significant => (t, find_lock_to_most_significant t select)
      | .middle => (t, find_lock_to_middle t select)
    match step.2 with
    | none => (step.1, r)
    | some entry =>
      let wave_idx := entry.1
      let voltage_code := entry.2
      ({ step.1 with
          lock_status := LOCK_DONE
          lock_data := [(wave_idx, voltage_code)]
          lock_code_prev := step.1.lock_code
          lock_code := voltage_code
          lock_wavelength := some (r.wavesIn.getD wave_idx 0) },
       r.acquire_lock_by_wave_idx wave_idx)

/-- `Tuner.search_and_acquire_lock(ring, mode, select)`. -/
def Tuner.search_and_acquire_lock (t : Tuner) (r : RingRxWDM) (mode : Mode)
    (select : ℕ) : Tuner × RingRxWDM :=
  (t.search_lock r).acquire_lock r mode select

/-- `Tuner.release_lock(ring)`: reset the lock state and detune the ring
(the ring's `release_lock` re-reads the upstream connection). -/
def Tuner.release_lock (t : Tuner) (r : RingRxWDM) (conn : List ℚ) :
    Tuner × RingRxWDM :=
  ({ t with lock_status := LOCK_NOT_STARTED, lock_data := [],
            lock_wavelength := none, lock_code := -1 },
   r.release_lock conn)

/-- `Tuner.get_lock_idx`: `sorted(self.search_table).index(self.lock_code)`,
the rank of the lock code in the ascending-sorted search table. -/
def Tuner.get_lock_idx (t : Tuner) : ℕ :=
  (sortByKey id t.search_table).indexOf t.lock_code

/-! ### RxSlice and the ring row (src/wdmsim/models/rx_slice.py, ring_row.py) -/

structure RxSlice where
  ring : RingRxWDM
  tuner : Tuner
  deriving DecidableEq

instance : Inhabited RxSlice := ⟨⟨mkRingRxWDM 0 0 0, Tuner.init⟩⟩

/-- `RingRxWDMRow.passthrough_wave`: each slice in chain order runs
`passthrough_wave`, reading its upstream connection's current wave (the laser
OUT for slice 0, the just-written THRU of the previous slice otherwise). -/
def rowPassthrough (conn : List ℚ) : List RxSlice → List RxSlice
  | [] => []
  | s :: rest =>
    let r := s.ring.passthrough_wave conn
    ⟨r, s.tuner⟩ :: rowPassthrough r.wavesThru rest

/-- `RingRxWDMRow.propagate_wave`: each slice in chain order runs
`propagate_wave`, reading its upstream connection's current wave (the laser
OUT for slice 0, the just-written THRU of the previous slice otherwise). -/
def rowPropagate (conn : List ℚ) : List RxSlice → List RxSlice
  | [] => []
  | s :: rest =>
    let r := s.ring.propagate_wave conn
    ⟨r, s.tuner⟩ :: rowPropagate r.wavesThru rest

/-! ### SystemUnderTest tick model (src/wdmsim/models/system_under_test.py)

A tick is: one arbiter step (a sequence of hardware operations on slices,
issued by the pluggable algorithm before it suspends), then one row
propagation.  `src` is the laser grid's OUT wave, connected to slice 0. -/

structure SUT where
  src : List ℚ
  slices : List RxSlice
  deriving DecidableEq

/-- The wave currently on slice `i`'s upstream connection: the laser OUT for
slice 0, slice `i-1`'s THRU port otherwise. -/
def connOf (st : SUT) (i : ℕ) : List ℚ :=
  if i = 0 then st.src else (st.slices.getD (i - 1) default).ring.wavesThru

/-- A hardware operation issued by the arbiter during its step:
`SearchInst`, `LockInst`, `UnlockInst` bound to a slice index. -/
inductive AOp
  | search (i : ℕ)
  | lock (i : ℕ) (mode : Mode) (select : ℕ)
  | unlock (i : ℕ)
  deriving DecidableEq

/-- Execute one hardware operation on the system state.  Search and lock touch
only the target slice's tuner and (for lock) its ring THRU/dial; unlock also
re-reads the slice's upstream connection (`release_lock` runs
`passthrough_wave`). -/
def applyAOp (st : SUT) : AOp → SUT
  | .search i =>
    let sl := st.slices.getD i default
    { st with slices := st.slices.set i ⟨sl.ring, sl.tuner.search_lock sl.ring⟩ }
  | .lock i mode select =>
    let sl := st.slices.getD i default
    let tr := sl.tuner.search_and_acquire_lock sl.ring mode select
    { st with slices := st.slices.set i ⟨tr.2, tr.1⟩ }
  | .unlock i =>
    let sl := st.slices.getD i default
    let tr := sl.tuner.release_lock sl.ring (connOf st i)
    { st with slices := st.slices.set i ⟨tr.2, tr.1⟩ }

/-- The arbiter phase of one tick: the operations the algorithm runs before
suspending, in order. -/
def applyAOps (st : SUT) (ops : List AOp) : SUT := ops.foldl applyAOp st

/-- One full tick: arbiter step, then `RingRxWDMRow.propagate_wave`. -/
def sutTick (st : SUT) (ops : List AOp) : SUT :=
  let st1 := applyAOps st ops
  { st1 with slices := rowPropagate st1.src st1.slices }

/-! ### Exit classification (SystemUnderTest.run_lock_sequence) -/

def EXIT_SUCCESS : ℕ := 0
def EXIT_ZERO_LOCK : ℕ := 1
def EXIT_DUPLICATE_LOCK : ℕ := 2
def EXIT_WRONG_LANE_ORDER : ℕ := 3

/-- `SystemUnderTest.is_duplicate_lock`: collect every tuner's
`lock_wavelength` (`None` when unlocked) and test
`len(set(lock_wavelengths)) < len(lock_wavelengths)`. -/
def is_duplicate_lock (lws : List (Option ℚ)) : Bool :=
  decide (lws.dedup.length < lws.length)

/-- The rotation used by `SystemUnderTest.is_correct_lane_order`:
`rotated[j] = (target[j] + i) % len(target)` (Python `%` on a positive modulus
is `Int.emod`). -/
def rotate_lane (tgt : List ℤ) (i : ℤ) : List ℤ :=
  tgt.map (fun x => (x + i) % (tgt.length : ℤ))

/-- The `current_lane_order` computed by `SystemUnderTest.is_correct_lane_order`
from the slices' lock wavelengths: pair each wavelength with its slice index,
stable-sort the pairs by wavelength, and map each slice to the position of its
pair in the sorted list. -/
def current_lane_order (ws : List ℚ) : List ℕ :=
  let pairs := ws.enum.map (fun p => (p.2, p.1))
  let sortedPairs := sortByKey (fun x => x.1) pairs
  pairs.map (fun p => sortedPairs.indexOf p)

/-- The rotation loop of `SystemUnderTest.is_correct_lane_order`: succeed iff
some rotation `i ∈ range(len(target))` of the target equals the current lane
order. -/
def is_correct_lane_order (tgt : List ℤ) (cur : List ℤ) : Bool :=
  (List.range tgt.length).any (fun i => decide (rotate_lane tgt (i : ℤ) = cur))

/-- Extract the values of a list of options when all are present. -/
def allSome {α : Type} : List (Option α) → Option (List α)
  | [] => some []
  | none :: _ => none
  | some a :: t => (allSome t).map (a :: ·)

/-- The terminal classification of `run_lock_sequence`, applied to the state
when the tick loop has stopped: the tuners' `lock_wavelength` list, the
arbiter's `lock_error_state`, and the optional target lane order.  Checks run
in strict order: duplicate lock, zero lock, lane order, success.

The lane-order check sorts `(lock_wavelength, index)` pairs with
`key=lambda x: x[0]`; CPython raises `TypeError` as soon as it compares a
`None` key with a float key (or with another `None`), which happens whenever
the list has at least two elements and at least one unlocked slice.  That path
is modelled as `Except.error ()`.  With a single slice no comparison happens
and `current_lane_order` is `[0]` whatever the wavelength. -/
def classify_exit (lws : List (Option ℚ)) (lock_error_state : Bool)
    (target_lane_order : Option (List ℤ)) : Except Unit ℕ :=
  if is_duplicate_lock lws then .ok EXIT_DUPLICATE_LOCK
  else if lock_error_state then .ok EXIT_ZERO_LOCK
  else
    match target_lane_order with
    | none => .ok EXIT_SUCCESS
    | some tgt =>
      match allSome lws with
      | some ws =>
        .ok (if is_correct_lane_order tgt ((current_lane_order ws).map Int.ofNat)
             then EXIT_SUCCESS else EXIT_WRONG_LANE_ORDER)
      | none =>
        if lws.length ≤ 1 then
          .ok (if is_correct_lane_order tgt [(0 : ℤ)]
               then EXIT_SUCCESS else EXIT_WRONG_LANE_ORDER)
        else .error ()

/-! ### LockInst (src/wdmsim/arbiter/arbiter_instr.py)

`LockInst.stage`: run `search_and_acquire_lock` on the target slice; if the
tuner ends with `lock_status == LOCK_DONE`, write
`{slice_idx: tuner.get_lock_idx()}` into the arbiter memory's LOCK_TABLE. -/
def lock_inst_stage (st : SUT) (lock_table : List (ℕ × ℕ)) (slice_idx : ℕ)
    (mode : Mode) (select : ℕ) : SUT × List (ℕ × ℕ) :=
  let st1 := applyAOp st (.lock slice_idx mode select)
  let t := (st1.slices.getD slice_idx default).tuner
  if t.lock_status = LOCK_DONE then
    (st1, dictUpdate lock_table slice_idx t.get_lock_idx)
  else (st1, lock_table)

/-! ### Helper functions used by the proofs (not part of the embedding) -/

/-- The voltage code the source computes for a wavelength in a window. -/
def windowCode (lam : ℚ) (sw : ℚ × ℚ) : ℤ :=
  pyTrunc ((lam - sw.1) / (sw.2 - sw.1) * (VDAC_FS : ℚ))

/-- The code recorded for a wavelength by the sweep loop, folding over the
windows: the last matching window wins (`search_data[wave_idx]` is overwritten
on every match). -/
def lastCodeFrom (lam : ℚ) (init : Option ℤ) (sweeps : List (ℚ × ℚ)) : Option ℤ :=
  sweeps.foldl (fun acc sw => if sw.1 ≤ lam ∧ lam ≤ sw.2 then some (windowCode lam sw) else acc) init

/-- The code `search_lock` records for a wavelength, if any. -/
def lastCode (r : RingRxWDM) (lam : ℚ) : Option ℤ :=
  lastCodeFrom lam none (get_sweep_range r)

/-! ## Lemmas about the sorting and dictionary models -/

theorem sortByKey_perm {α β : Type} [LinearOrder β] (k : α → β) (l : List α) :
    List.Perm (sortByKey k l) l :=
  List.perm_insertionSort _ l

theorem sortByKey_sorted {α β : Type} [LinearOrder β] (k : α → β) (l : List α) :
    (sortByKey k l).Sorted (fun x y => k x ≤ k y) := by
  haveI : IsTotal α (fun x y => k x ≤ k y) := ⟨fun a b => le_total (k a) (k b)⟩
  haveI : IsTrans α (fun x y => k x ≤ k y) := ⟨fun _ _ _ h1 h2 => le_trans h1 h2⟩
  exact List.sorted_insertionSort _ l

theorem sortByKey_length {α β : Type} [LinearOrder β] (k : α → β) (l : List α) :
    (sortByKey k l).length = l.length :=
  (sortByKey_perm k l).length_eq

/-- Mapping the key over a key-sorted list gives the sorted list of keys. -/
theorem map_sortByKey {α β : Type} [LinearOrder β] (k : α → β) (l : List α) :
    (sortByKey k l).map k = sortByKey id (l.map k) := by
  haveI : IsAntisymm β (· ≤ ·) := ⟨fun _ _ h1 h2 => le_antisymm h1 h2⟩
  have h1 : ((sortByKey k l).map k).Sorted (· ≤ ·) :=
    (List.pairwise_map).mpr (sortByKey_sorted k l)
  have h2 : (sortByKey id (l.map k)).Sorted (· ≤ ·) := sortByKey_sorted id (l.map k)
  exact List.eq_of_perm_of_sorted
    (((sortByKey_perm k l).map k).trans ((sortByKey_perm id (l.map k)).symm)) h1 h2

/-- A list already sorted ascending is fixed by the sort. -/
theorem sortByKey_id_of_sorted {α : Type} [LinearOrder α] (l : List α)
    (hs : l.Sorted (· ≤ ·)) : sortByKey id l = l := by
  haveI : IsAntisymm α (· ≤ ·) := ⟨fun _ _ h1 h2 => le_antisymm h1 h2⟩
  have h1 : (sortByKey id l).Sorted (· ≤ ·) := sortByKey_sorted id l
  exact List.eq_of_perm_of_sorted (sortByKey_perm id l) h1 hs

theorem get?_map_sortByKey {α β : Type} [LinearOrder β] (k : α → β) (l : List α)
    (s : ℕ) :
    ((sortByKey k l).get? s).map k = (sortByKey id (l.map k)).get? s := by
  rw [← List.get?_map, map_sortByKey]

theorem dictUpdate_dictUpdate {κ ν : Type} [DecidableEq κ] (d : List (κ × ν))
    (k : κ) (v w : ν) : dictUpdate (dictUpdate d k v) k w = dictUpdate d k w := by
  induction d with
  | nil => simp [dictUpdate]
  | cons p t ih =>
    by_cases h : p.1 = k
    · simp [dictUpdate, h]
    · simp [dictUpdate, h, ih]

theorem dictLookup_dictUpdate {κ ν : Type} [DecidableEq κ] (d : List (κ × ν))
    (k : κ) (v : ν) : dictLookup (dictUpdate d k v) k = some v := by
  induction d with
  | nil => simp [dictUpdate, dictLookup]
  | cons p t ih =>
    by_cases h : p.1 = k
    · simp [dictUpdate, h, dictLookup]
    · simp [dictUpdate, h, dictLookup, ih]

theorem dictUpdate_fresh {κ ν : Type} [DecidableEq κ] (d : List (κ × ν)) (k : κ)
    (v : ν) (h : dictLookup d k = none) : dictUpdate d k v = d ++ [(k, v)] := by
  induction d with
  | nil => simp [dictUpdate]
  | cons p t ih =>
    by_cases hp : p.1 = k
    · simp [dictLookup, hp] at h
    · simp only [dictLookup, hp, if_false] at h
      simp [dictUpdate, hp, ih h]

theorem dictLookup_append_left {κ ν : Type} [DecidableEq κ] (d e : List (κ × ν))
    (k : κ) (h : dictLookup d k = none) :
    dictLookup (d ++ e) k = dictLookup e k := by
  induction d with
  | nil => simp
  | cons p t ih =>
    by_cases hp : p.1 = k
    · simp [dictLookup, hp] at h
    · simp only [dictLookup, hp, if_false] at h
      simpa [dictLookup, hp] using ih h

theorem dictLookup_none_of_keys {κ ν : Type} [DecidableEq κ] (d : List (κ × ν))
    (k : κ) (h : ∀ p ∈ d, p.1 ≠ k) : dictLookup d k = none := by
  induction d with
  | nil => rfl
  | cons p t ih =>
    have hp := h p (by simp)
    simp only [dictLookup, hp, if_false]
    exact ih (fun q hq => h q (by simp [hq]))

/-! ## Lemmas about the wave-set operations -/

theorem mem_filter_by_wavelength_invert (l : List ℚ) (w x : ℚ) :
    x ∈ filter_by_wavelength_invert l w ↔ x ∈ l ∧ x ≠ w := by
  rw [filter_by_wavelength_invert, (sortByKey_perm id _).mem_iff]
  simp [List.mem_filter]

theorem erase_eq_filter_of_nodup {α : Type} [DecidableEq α] (l : List α) (w : α)
    (h : l.Nodup) : l.erase w = l.filter (fun x => decide (x ≠ w)) := by
  induction l with
  | nil => rfl
  | cons a t ih =>
    rcases List.nodup_cons.mp h with ⟨ha, ht⟩
    by_cases haw : a = w
    · subst haw
      rw [List.erase_cons_head, List.filter_cons]
      have hpa : (decide (a ≠ a)) = false := by simp
      rw [hpa]
      simp only [Bool.false_eq_true, if_false]
      exact (List.filter_eq_self.mpr (fun b hb => by
        simp only [decide_eq_true_eq]
        exact fun hba => ha (hba ▸ hb))).symm
    · rw [List.erase_cons_tail, List.filter_cons]
      · have hpa : (decide (a ≠ w)) = true := by simp [haw]
        rw [hpa]
        simp only [if_true]
        rw [ih ht]
      · simp [haw]

/-- On a strictly sorted (hence duplicate-free) list, the source's
set-difference filter is plain list erasure. -/
theorem filter_by_wavelength_invert_sorted (l : List ℚ) (w : ℚ)
    (hs : l.Sorted (· < ·)) :
    filter_by_wavelength_invert l w = l.erase w := by
  have hnd : l.Nodup := hs.nodup
  rw [filter_by_wavelength_invert, List.dedup_eq_self.mpr hnd,
    ← erase_eq_filter_of_nodup l w hnd]
  exact sortByKey_id_of_sorted _
    (List.Pairwise.imp le_of_lt (hs.sublist (l.erase_sublist w)))

theorem filter_by_wavelength_invert_not_mem (l : List ℚ) (w : ℚ)
    (hs : l.Sorted (· < ·)) (hw : w ∉ l) :
    filter_by_wavelength_invert l w = l := by
  rw [filter_by_wavelength_invert_sorted l w hs, List.erase_of_not_mem hw]

/-! ## Claim C2 — per-slice propagation -/

/-- C2 (amended): a `propagate_wave` step copies the connection wave into IN and
sets THRU to IN minus the ring's `curr_wavelength` — the locked wavelength when
tuned, but the design resonance when untuned.  Hence THRU equals IN minus the
tuned wavelength in the tuned case, while for an untuned slice THRU = IN holds
only when the design resonance is not present in IN. -/
theorem C2_propagate_wave_spec (conn : List ℚ) (r : RingRxWDM)
    (hs : conn.Sorted (· < ·)) :
    (r.propagate_wave conn).wavesIn = conn ∧
    (r.propagate_wave conn).wavesThru = conn.erase r.curr_wavelength ∧
    (r.curr_wavelength ∉ conn → (r.propagate_wave conn).wavesThru = conn) := by
  refine ⟨rfl, ?_, ?_⟩
  · exact filter_by_wavelength_invert_sorted conn r.curr_wavelength hs
  · intro hw
    exact filter_by_wavelength_invert_not_mem conn r.curr_wavelength hs hw

theorem C2_witness :
    (([1, 2] : List ℚ).Sorted (· < ·)) ∧
    (((mkRingRxWDM 5 100 1).propagate_wave [1, 2]).wavesIn = [1, 2] ∧
     ((mkRingRxWDM 5 100 1).propagate_wave [1, 2]).wavesThru
        = ([1, 2] : List ℚ).erase (mkRingRxWDM 5 100 1).curr_wavelength ∧
     ((mkRingRxWDM 5 100 1).curr_wavelength ∉ ([1, 2] : List ℚ) →
       ((mkRingRxWDM 5 100 1).propagate_wave [1, 2]).wavesThru = [1, 2])) :=
  ⟨by decide, C2_propagate_wave_spec [1, 2] (mkRingRxWDM 5 100 1) (by decide)⟩

/-- C2 counterexample: a freshly built, untuned slice whose design resonance
(5) is on its input.  The claim says an untuned slice passes IN through
unchanged, but `propagate_wave` filters `curr_wavelength` unconditionally and
`curr_wavelength` defaults to the design resonance, so THRU loses wavelength 5. -/
theorem C2_counterexample :
    (Tuner.init.lock_status ≠ LOCK_DONE ∧ Tuner.init.lock_wavelength = none) ∧
    ((mkRingRxWDM 5 100 1).propagate_wave [5]).wavesIn = [5] ∧
    ((mkRingRxWDM 5 100 1).propagate_wave [5]).wavesThru = [] := by
  refine ⟨⟨by decide, rfl⟩, rfl, ?_⟩
  decide

/-! ## Claim C6 — row propagation order invariant -/

theorem rowPropagate_length (conn : List ℚ) (slices : List RxSlice) :
    (rowPropagate conn slices).length = slices.length := by
  induction slices generalizing conn with
  | nil => rfl
  | cons s rest ih => simp [rowPropagate, ih]

/-- The head of a propagated row has IN equal to the wave fed into the row. -/
theorem rowPropagate_head_in (conn : List ℚ) (s : RxSlice) (rest : List RxSlice) :
    ((rowPropagate conn (s :: rest)).getD 0 default).ring.wavesIn = conn := by
  simp [rowPropagate, RingRxWDM.propagate_wave]

/-- C6: after `RingRxWDMRow.propagate_wave`, slice `i`'s IN equals slice
`i-1`'s THRU as computed during that same call, for every `i > 0` (slices are
visited strictly in chain order, upstream before downstream). -/
theorem C6_rowPropagate_in_eq_prev_thru (conn : List ℚ) (slices : List RxSlice)
    (i : ℕ) (h : i + 1 < slices.length) :
    ((rowPropagate conn slices).getD (i + 1) default).ring.wavesIn
      = ((rowPropagate conn slices).getD i default).ring.wavesThru := by
  induction slices generalizing conn i with
  | nil => simp at h
  | cons s rest ih =>
    match rest, h with
    | s2 :: rest2, h =>
      cases i with
      | zero =>
        show ((rowPropagate _ (s2 :: rest2)).getD 0 default).ring.wavesIn = _
        rw [rowPropagate_head_in]
        simp [rowPropagate]
      | succ j =>
        have hj : j + 1 < (s2 :: rest2).length := by
          simpa using Nat.lt_of_succ_lt_succ h
        simpa [rowPropagate] using ih _ j hj

theorem C6_witness :
    (0 + 1 < ([⟨mkRingRxWDM 1 8 4, Tuner.init⟩,
               ⟨mkRingRxWDM 2 8 4, Tuner.init⟩] : List RxSlice).length) ∧
    ((rowPropagate [1, 2] [⟨mkRingRxWDM 1 8 4, Tuner.init⟩,
                           ⟨mkRingRxWDM 2 8 4, Tuner.init⟩]).getD 1 default).ring.wavesIn
      = ((rowPropagate [1, 2] [⟨mkRingRxWDM 1 8 4, Tuner.init⟩,
                               ⟨mkRingRxWDM 2 8 4, Tuner.init⟩]).getD 0 default).ring.wavesThru :=
  ⟨by decide,
   C6_rowPropagate_in_eq_prev_thru [1, 2]
     [⟨mkRingRxWDM 1 8 4, Tuner.init⟩, ⟨mkRingRxWDM 2 8 4, Tuner.init⟩] 0 (by decide)⟩

/-! ## Claim C3 — search on an empty IN wave set -/

/-- C3: `Tuner.search_lock` on an empty IN wave set.  The spec (and the
source's own inline comment) say this yields `SEARCH_NO_WAVE`; but
`OpticalWave.__init__` always stores a list, so the guard
`waves.wavelengths is None` never fires and the empty sweep loop falls through
to `SEARCH_NOT_IN_RANGE` with empty search data. -/
theorem C3_search_lock_empty (t : Tuner) (r : RingRxWDM) (h : r.wavesIn = []) :
    (t.search_lock r).search_status = SEARCH_NOT_IN_RANGE ∧
    (t.search_lock r).search_status ≠ SEARCH_NO_WAVE ∧
    (t.search_lock r).search_data = [] := by
  simp [Tuner.search_lock, wavelengthsIsPyNone, h, SEARCH_NOT_IN_RANGE, SEARCH_NO_WAVE]

theorem C3_witness :
    ((mkRingRxWDM 1 8 4).wavesIn = []) ∧
    ((Tuner.init.search_lock (mkRingRxWDM 1 8 4)).search_status = SEARCH_NOT_IN_RANGE ∧
     (Tuner.init.search_lock (mkRingRxWDM 1 8 4)).search_status ≠ SEARCH_NO_WAVE ∧
     (Tuner.init.search_lock (mkRingRxWDM 1 8 4)).search_data = []) :=
  ⟨rfl, C3_search_lock_empty Tuner.init (mkRingRxWDM 1 8 4) rfl⟩

/-! ## Claim C10 — two unlocked slices count as a duplicate lock -/

theorem not_nodup_of_two_none (lws : List (Option ℚ))
    (h : 2 ≤ lws.countP (fun w => w.isNone)) : ¬ lws.Nodup := by
  induction lws with
  | nil => simp [List.countP_nil] at h
  | cons a t ih =>
    rw [List.countP_cons] at h
    cases a with
    | none =>
      have h1 : 0 < t.countP (fun w => w.isNone) := by
        simp only [Option.isNone_none, if_true] at h
        omega
      obtain ⟨b, hb, hpb⟩ := List.countP_pos.mp h1
      have hbn : b = none := Option.isNone_iff_eq_none.mp hpb
      intro hnd
      exact (List.nodup_cons.mp hnd).1 (hbn ▸ hb)
    | some x =>
      have h1 : 2 ≤ t.countP (fun w => w.isNone) := by simpa using h
      intro hnd
      exact ih h1 (List.nodup_cons.mp hnd).2

theorem is_duplicate_lock_of_two_none (lws : List (Option ℚ))
    (h : 2 ≤ lws.countP (fun w => w.isNone)) : is_duplicate_lock lws = true := by
  have hnd : ¬ lws.Nodup := not_nodup_of_two_none lws h
  have hsub : lws.dedup.Sublist lws := lws.dedup_sublist
  have hlen : lws.dedup.length ≤ lws.length := hsub.length_le
  have hne : lws.dedup.length ≠ lws.length := by
    intro he
    exact hnd (hsub.eq_of_length he ▸ lws.nodup_dedup)
  simp only [is_duplicate_lock, decide_eq_true_eq]
  omega

/-- C10: when the tick loop stops with two or more slices unlocked
(`lock_wavelength` is `None`), `run_lock_sequence` classifies the run as
DUPLICATE_LOCK (2) regardless of the arbiter's `lock_error_state`, because the
duplicate check runs first and the repeated `None` values collapse in the set
comparison. -/
theorem C10_two_unlocked_duplicate (lws : List (Option ℚ)) (e : Bool)
    (tgt : Option (List ℤ)) (h : 2 ≤ lws.countP (fun w => w.isNone)) :
    classify_exit lws e tgt = .ok EXIT_DUPLICATE_LOCK := by
  simp [classify_exit, is_duplicate_lock_of_two_none lws h]

theorem C10_witness :
    (2 ≤ ([none, some 3, none] : List (Option ℚ)).countP (fun w => w.isNone)) ∧
    classify_exit [none, some 3, none] true (some [0, 1, 2]) = .ok EXIT_DUPLICATE_LOCK :=
  ⟨by decide, C10_two_unlocked_duplicate [none, some 3, none] true (some [0, 1, 2]) (by decide)⟩

/-! ## Claim C8 — lane-order check up to cyclic rotation -/

theorem emod_add_left_cancel (a b n : ℤ) : (a % n + b) % n = (a + b) % n := by
  rw [Int.add_emod (a % n) b, Int.emod_emod_of_dvd a dvd_rfl, ← Int.add_emod]

theorem emod_add_right_cancel (a b n : ℤ) : (a + b % n) % n = (a + b) % n := by
  rw [Int.add_emod a (b % n), Int.emod_emod_of_dvd b dvd_rfl, ← Int.add_emod]

theorem rotate_lane_length (tgt : List ℤ) (i : ℤ) :
    (rotate_lane tgt i).length = tgt.length := by
  simp [rotate_lane]

theorem rotate_lane_rotate_lane (tgt : List ℤ) (k i : ℤ) :
    rotate_lane (rotate_lane tgt k) i = rotate_lane tgt (k + i) := by
  simp only [rotate_lane, List.map_map, List.length_map]
  apply List.map_congr_left
  intro x _
  simp only [Function.comp_apply]
  rw [emod_add_left_cancel, add_assoc]

theorem rotate_lane_emod (tgt : List ℤ) (m : ℤ) :
    rotate_lane tgt (m % (tgt.length : ℤ)) = rotate_lane tgt m := by
  simp only [rotate_lane]
  apply List.map_congr_left
  intro x _
  rw [emod_add_right_cancel]

theorem is_correct_lane_order_iff (tgt cur : List ℤ) :
    is_correct_lane_order tgt cur = true ↔
      ∃ i : ℕ, i < tgt.length ∧ rotate_lane tgt (i : ℤ) = cur := by
  simp [is_correct_lane_order, List.any_eq_true, List.mem_range]

theorem is_correct_lane_order_rot (tgt cur : List ℤ) (k : ℤ) :
    is_correct_lane_order (rotate_lane tgt k) cur = is_correct_lane_order tgt cur := by
  rcases List.eq_nil_or_concat tgt with hnil | ⟨_, _, hne⟩
  · subst hnil
    rfl
  · have hlen : 0 < tgt.length := by
      subst hne
      simp
    have hN : (0 : ℤ) < (tgt.length : ℤ) := by exact_mod_cast hlen
    have hiff : (is_correct_lane_order (rotate_lane tgt k) cur = true) ↔
        (is_correct_lane_order tgt cur = true) := by
      rw [is_correct_lane_order_iff, is_correct_lane_order_iff]
      constructor
      · rintro ⟨i, hi, hrot⟩
        rw [rotate_lane_rotate_lane] at hrot
        refine ⟨((k + i) % (tgt.length : ℤ)).toNat, ?_, ?_⟩
        · have h1 : (k + i) % (tgt.length : ℤ) < (tgt.length : ℤ) :=
            Int.emod_lt_of_pos _ hN
          have h2 : 0 ≤ (k + i) % (tgt.length : ℤ) :=
            Int.emod_nonneg _ (by omega)
          omega
        · have h2 : 0 ≤ (k + i) % (tgt.length : ℤ) :=
            Int.emod_nonneg _ (by omega)
          rw [Int.toNat_of_nonneg h2, rotate_lane_emod]
          exact hrot
      · rintro ⟨j, hj, hrot⟩
        refine ⟨((j - k) % (tgt.length : ℤ)).toNat, ?_, ?_⟩
        · have h1 : ((j : ℤ) - k) % (tgt.length : ℤ) < (tgt.length : ℤ) :=
            Int.emod_lt_of_pos _ hN
          have h2 : 0 ≤ ((j : ℤ) - k) % (tgt.length : ℤ) :=
            Int.emod_nonneg _ (by omega)
          rw [rotate_lane_length]
          omega
        · have h2 : 0 ≤ ((j : ℤ) - k) % (tgt.length : ℤ) :=
            Int.emod_nonneg _ (by omega)
          rw [rotate_lane_rotate_lane, Int.toNat_of_nonneg h2, ← rotate_lane_emod,
            emod_add_right_cancel]
          have h3 : (k + ((j : ℤ) - k)) = (j : ℤ) := by ring
          rw [h3, Int.emod_eq_of_lt (by omega) (by omega), hrot]
    cases h1 : is_correct_lane_order (rotate_lane tgt k) cur <;>
      cases h2 : is_correct_lane_order tgt cur <;>
      simp_all

/-- C8: the lane-order check succeeds iff some rotation
`rotated[j] = (target[j] + i) mod N`, `0 ≤ i < N`, of the target equals the
current lane order derived by ranking slices by their lock wavelength; and the
check agrees on `target` and on any rotation of `target`. -/
theorem C8_lane_order_up_to_rotation (tgt : List ℤ) (ws : List ℚ) (k : ℤ) :
    (is_correct_lane_order tgt ((current_lane_order ws).map Int.ofNat) = true ↔
      ∃ i : ℕ, i < tgt.length ∧
        rotate_lane tgt (i : ℤ) = (current_lane_order ws).map Int.ofNat) ∧
    is_correct_lane_order (rotate_lane tgt k) ((current_lane_order ws).map Int.ofNat)
      = is_correct_lane_order tgt ((current_lane_order ws).map Int.ofNat) :=
  ⟨is_correct_lane_order_iff tgt _, is_correct_lane_order_rot tgt _ k⟩

/-! ## Claim C1 — exit classification of `run_lock_sequence` -/

theorem allSome_of_all_isSome {α : Type} (l : List (Option α))
    (h : l.all (fun w => w.isSome) = true) : ∃ ws, allSome l = some ws := by
  induction l with
  | nil => exact ⟨[], rfl⟩
  | cons a t ih =>
    simp only [List.all_cons, Bool.and_eq_true] at h
    obtain ⟨ws, hws⟩ := ih h.2
    cases a with
    | none => simp at h
    | some x => exact ⟨x :: ws, by simp [allSome, hws]⟩

/-- C1 (amended): whenever the tick loop stops with every slice holding a lock
wavelength — or with the lane-order check not reached at all, because the
duplicate-lock check fires, or `lock_error_state` is set, or no target lane
order was given (the system having at most one slice is also safe) —
`run_lock_sequence` returns an exit status in
{SUCCESS=0, ZERO_LOCK=1, DUPLICATE_LOCK=2, WRONG_LANE_ORDER=3}, classified in
strict priority order: duplicate lock wavelengths (set comparison) → 2, else
arbiter `lock_error_state` → 1, else failed lane-order check (only when a
target order was given) → 3, else 0.  Outside this domain — a proper mix of
locked and unlocked slices reaching the lane-order check — the sort raises
`TypeError` instead of returning — see the counterexample. -/
theorem C1_classify_exit_spec (lws : List (Option ℚ)) (e : Bool)
    (tgt : Option (List ℤ))
    (hsafe : lws.all (fun w => w.isSome) = true ∨ is_duplicate_lock lws = true ∨
      e = true ∨ tgt = none ∨ lws.length ≤ 1) :
    ∃ r, classify_exit lws e tgt = .ok r ∧ r ≤ 3 ∧
      (is_duplicate_lock lws = true → r = EXIT_DUPLICATE_LOCK) ∧
      (is_duplicate_lock lws = false → e = true → r = EXIT_ZERO_LOCK) ∧
      (is_duplicate_lock lws = false → e = false → tgt = none → r = EXIT_SUCCESS) ∧
      (∀ t ws, is_duplicate_lock lws = false → e = false → tgt = some t →
        allSome lws = some ws →
        r = if is_correct_lane_order t ((current_lane_order ws).map Int.ofNat)
            then EXIT_SUCCESS else EXIT_WRONG_LANE_ORDER) := by
  by_cases hdup : is_duplicate_lock lws = true
  · refine ⟨EXIT_DUPLICATE_LOCK, ?_, ?_, fun _ => rfl, ?_, ?_, ?_⟩
    · simp [classify_exit, hdup]
    · norm_num [EXIT_DUPLICATE_LOCK]
    · intro h _
      rw [hdup] at h
      cases h
    · intro h _ _
      rw [hdup] at h
      cases h
    · intro t ws h _ _ _
      rw [hdup] at h
      cases h
  · have hdup' : is_duplicate_lock lws = false := by simpa using hdup
    cases e with
    | true =>
      refine ⟨EXIT_ZERO_LOCK, ?_, ?_, ?_, fun _ _ => rfl, ?_, ?_⟩
      · simp [classify_exit, hdup']
      · norm_num [EXIT_ZERO_LOCK]
      · intro h
        rw [hdup'] at h
        cases h
      · intro _ h _
        cases h
      · intro t ws _ h _ _
        cases h
    | false =>
      cases tgt with
      | none =>
        refine ⟨EXIT_SUCCESS, ?_, ?_, ?_, ?_, fun _ _ _ => rfl, ?_⟩
        · simp [classify_exit, hdup']
        · norm_num [EXIT_SUCCESS]
        · intro h
          rw [hdup'] at h
          cases h
        · intro _ h
          cases h
        · intro t ws _ _ h _
          cases h
      | some t =>
        -- only here can the Python sort throw; the hypothesis rules it out
        have hsafe2 : lws.all (fun w => w.isSome) = true ∨ lws.length ≤ 1 := by
          rcases hsafe with h | h | h | h | h
          · exact Or.inl h
          · exact absurd h hdup
          · cases h
          · cases h
          · exact Or.inr h
        cases hws0 : allSome lws with
        | some ws0 =>
          refine ⟨if is_correct_lane_order t ((current_lane_order ws0).map Int.ofNat)
                  then EXIT_SUCCESS else EXIT_WRONG_LANE_ORDER, ?_, ?_, ?_, ?_, ?_, ?_⟩
          · simp [classify_exit, hdup', hws0]
          · split <;> norm_num [EXIT_SUCCESS, EXIT_WRONG_LANE_ORDER]
          · intro h
            rw [hdup'] at h
            cases h
          · intro _ h
            cases h
          · intro _ _ h
            cases h
          · intro t2 ws2 _ _ ht hws2
            have ht2 : t2 = t := by
              injection ht.symm
            have hws2' : ws2 = ws0 := by
              injection hws2.symm
            rw [ht2, hws2']
        | none =>
          have hlen : lws.length ≤ 1 := by
            rcases hsafe2 with h | h
            · obtain ⟨ws, hws⟩ := allSome_of_all_isSome lws h
              rw [hws0] at hws
              cases hws
            · exact h
          refine ⟨if is_correct_lane_order t [(0 : ℤ)]
                  then EXIT_SUCCESS else EXIT_WRONG_LANE_ORDER, ?_, ?_, ?_, ?_, ?_, ?_⟩
          · simp [classify_exit, hdup', hws0, hlen]
          · split <;> norm_num [EXIT_SUCCESS, EXIT_WRONG_LANE_ORDER]
          · intro h
            rw [hdup'] at h
            cases h
          · intro _ h
            cases h
          · intro _ _ h
            cases h
          · intro t2 ws2 _ _ _ hws2
            cases hws2

/-- C1 counterexample: the tick loop can stop with one slice locked and one
unlocked while `lock_error_state` is unset (a plugin algorithm may end without
locking every slice); with a target lane order given, the duplicate and
zero-lock checks pass and the lane-order sort compares a `None` key against a
float key, so CPython raises `TypeError` and `run_lock_sequence` does not
return an exit status. -/
theorem C1_counterexample :
    classify_exit [some 1, none] false (some [0, 1]) = .error () := by
  rfl

theorem C1_witness :
    ((([some 1, some 2] : List (Option ℚ)).all (fun w => w.isSome) = true) ∧
      (∃ r, classify_exit [some 1, some 2] false (some [0, 1]) = .ok r ∧ r ≤ 3)) ∧
    classify_exit [some 1, none] true (some [0, 1]) = .ok EXIT_ZERO_LOCK := by
  constructor
  · refine ⟨by decide, ?_⟩
    obtain ⟨r, h1, h2, _⟩ :=
      C1_classify_exit_spec [some 1, some 2] false (some [0, 1]) (Or.inl (by decide))
    exact ⟨r, h1, h2⟩
  · obtain ⟨r, h1, _, _, h4, _⟩ :=
      C1_classify_exit_spec [some 1, none] true (some [0, 1])
        (Or.inr (Or.inr (Or.inl rfl)))
    rw [h4 (by decide) rfl] at h1
    exact h1

/-! ## Claim C5 — lock policy selection -/

theorem rat_floor_eq_floor (q : ℚ) : Rat.floor q = ⌊q⌋ := by
  rw [Rat.floor_def', Rat.floor_def]

/-- For a nonnegative argument, Python truncation is the floor. -/
theorem pyTrunc_of_nonneg (q : ℚ) (h : 0 ≤ q) : pyTrunc q = ⌊q⌋ := by
  rw [pyTrunc, if_neg (not_lt.mpr h), rat_floor_eq_floor]

theorem pyTrunc_half_vdac : pyTrunc ((1 : ℚ) / 2 * (VDAC_FS : ℚ)) = 128 := by
  with_unfolding_all decide

theorem find_least_in_range (t : Tuner) (select : ℕ)
    (hs : select < t.search_data.length) :
    find_lock_to_least_significant t select
      = (sortByKey (fun x => x.2) t.search_data).get? select := by
  rw [find_lock_to_least_significant, if_neg (Nat.not_le.mpr hs)]

theorem find_most_in_range (t : Tuner) (select : ℕ)
    (hs : select < t.search_data.length) :
    find_lock_to_most_significant t select
      = (sortByKey (fun x => x.2) t.search_data).get?
          (t.search_data.length - 1 - select) := by
  rw [find_lock_to_most_significant, if_neg (Nat.not_le.mpr hs)]

theorem find_middle_in_range (t : Tuner) (select : ℕ)
    (hs : select < t.search_data.length) :
    find_lock_to_middle t select
      = (sortByKey (fun x => |x.2|) t.search_data).get? select := by
  rw [find_lock_to_middle, if_neg (Nat.not_le.mpr hs)]

/-- The `nearest` policy first normalizes a negative `lock_code_prev` to
mid-scale 128 and then selects by distance to it. -/
theorem find_nearest_in_range (t : Tuner) (select : ℕ)
    (hs : select < t.search_data.length) :
    find_lock_to_nearest t select
      = (if t.lock_code_prev < 0 then { t with lock_code_prev := 128 } else t,
         (sortByKey (fun x =>
             |x.2 - (if t.lock_code_prev < 0 then 128 else t.lock_code_prev)|)
           t.search_data).get? select) := by
  rw [find_lock_to_nearest]
  by_cases hp : t.lock_code_prev < 0
  · simp only [hp, if_true, pyTrunc_half_vdac]
    rw [if_neg (Nat.not_le.mpr hs)]
  · simp only [hp, if_false]
    rw [if_neg (Nat.not_le.mpr hs)]

/-- C5: `lock(mode, select)` behavior.  When search did not complete,
`lock_status` mirrors the search failure code and nothing else changes.  When
`search_status == DONE` and `select < len(search_data)` the call locks
(`lock_status == DONE`) and picks the entry given by the mode's policy:
`least_significant` the `select`-th lowest code, `most_significant` the
`(len-1-select)`-th in ascending code order, `nearest` the `select`-th closest
code to the previous lock code (defaulting to 128 when never locked), `middle`
the `select`-th smallest absolute code.  When `select ≥ len(search_data)` the
call is a no-op with status (and lock data) unchanged. -/
theorem C5_acquire_lock_spec (t : Tuner) (r : RingRxWDM) (mode : Mode) (select : ℕ) :
    (t.search_status = SEARCH_NOT_STARTED →
      t.acquire_lock r mode select = ({ t with lock_status := LOCK_NOT_STARTED }, r)) ∧
    (t.search_status = SEARCH_NO_WAVE →
      t.acquire_lock r mode select = ({ t with lock_status := LOCK_NO_WAVE }, r)) ∧
    (t.search_status = SEARCH_NOT_IN_RANGE →
      t.acquire_lock r mode select = ({ t with lock_status := LOCK_NOT_IN_RANGE }, r)) ∧
    (t.search_status = SEARCH_DONE → t.search_data.length ≤ select →
      (t.acquire_lock r mode select).1.lock_status = t.lock_status ∧
      (t.acquire_lock r mode select).1.lock_code = t.lock_code ∧
      (t.acquire_lock r mode select).1.lock_data = t.lock_data ∧
      (t.acquire_lock r mode select).1.lock_wavelength = t.lock_wavelength ∧
      (t.acquire_lock r mode select).2 = r) ∧
    (t.search_status = SEARCH_DONE → select < t.search_data.length →
      (t.acquire_lock r mode select).1.lock_status = LOCK_DONE ∧
      (mode = .least_significant →
        (sortByKey id (t.search_data.map (fun x => x.2))).get? select
          = some (t.acquire_lock r mode select).1.lock_code) ∧
      (mode = .most_significant →
        (sortByKey id (t.search_data.map (fun x => x.2))).get?
            (t.search_data.length - 1 - select)
          = some (t.acquire_lock r mode select).1.lock_code) ∧
      (mode = .nearest →
        (sortByKey id (t.search_data.map (fun x =>
            |x.2 - (if t.lock_code_prev < 0 then 128 else t.lock_code_prev)|))).get?
            select
          = some |(t.acquire_lock r mode select).1.lock_code -
                  (if t.lock_code_prev < 0 then 128 else t.lock_code_prev)|) ∧
      (mode = .middle →
        (sortByKey id (t.search_data.map (fun x => |x.2|))).get? select
          = some |(t.acquire_lock r mode select).1.lock_code|)) := by
  refine ⟨?_, ?_, ?_, ?_, ?_⟩
  · intro h
    have hne : t.search_status ≠ SEARCH_DONE := by
      rw [h]
      simp [SEARCH_NOT_STARTED, SEARCH_DONE]
    simp [Tuner.acquire_lock, hne, h, SEARCH_NOT_STARTED, SEARCH_NO_WAVE,
      SEARCH_NOT_IN_RANGE, SEARCH_DONE]
  · intro h
    have hne : t.search_status ≠ SEARCH_DONE := by
      rw [h]
      simp [SEARCH_NO_WAVE, SEARCH_DONE]
    simp [Tuner.acquire_lock, hne, h, SEARCH_NOT_STARTED, SEARCH_NO_WAVE,
      SEARCH_NOT_IN_RANGE, SEARCH_DONE]
  · intro h
    have hne : t.search_status ≠ SEARCH_DONE := by
      rw [h]
      simp [SEARCH_NOT_IN_RANGE, SEARCH_DONE]
    simp [Tuner.acquire_lock, hne, h, SEARCH_NOT_STARTED, SEARCH_NO_WAVE,
      SEARCH_NOT_IN_RANGE, SEARCH_DONE]
  · intro hd hs
    have hne : ¬ (t.search_status ≠ SEARCH_DONE) := by simp [hd]
    cases mode with
    | least_significant =>
      rw [Tuner.acquire_lock, if_neg hne]
      simp only [find_lock_to_least_significant, if_pos hs]
      refine ⟨?_, ?_, ?_, ?_, ?_⟩ <;> trivial
    | nearest =>
      rw [Tuner.acquire_lock, if_neg hne]
      simp only [find_lock_to_nearest]
      by_cases hp : t.lock_code_prev < 0
      · simp only [hp, if_true, if_pos hs]
        refine ⟨?_, ?_, ?_, ?_, ?_⟩ <;> trivial
      · simp only [hp, if_false, if_pos hs]
        refine ⟨?_, ?_, ?_, ?_, ?_⟩ <;> trivial
    | most_significant =>
      rw [Tuner.acquire_lock, if_neg hne]
      simp only [find_lock_to_most_significant, if_pos hs]
      refine ⟨?_, ?_, ?_, ?_, ?_⟩ <;> trivial
    | middle =>
      rw [Tuner.acquire_lock, if_neg hne]
      simp only [find_lock_to_middle, if_pos hs]
      refine ⟨?_, ?_, ?_, ?_, ?_⟩ <;> trivial
  · intro hd hs
    have hne : ¬ (t.search_status ≠ SEARCH_DONE) := by simp [hd]
    cases mode with
    | least_significant =>
      have hlen : select < (sortByKey (fun x : ℕ × ℤ => x.2) t.search_data).length := by
        rw [sortByKey_length]
        exact hs
      obtain ⟨entry, hentry⟩ : ∃ e,
          (sortByKey (fun x : ℕ × ℤ => x.2) t.search_data).get? select = some e :=
        ⟨_, List.get?_eq_get hlen⟩
      have hacq : t.acquire_lock r .least_significant select
          = ({ t with
                lock_status := LOCK_DONE
                lock_data := [(entry.1, entry.2)]
                lock_code_prev := t.lock_code
                lock_code := entry.2
                lock_wavelength := some (r.wavesIn.getD entry.1 0) },
             r.acquire_lock_by_wave_idx entry.1) := by
        rw [Tuner.acquire_lock, if_neg hne]
        simp only [find_least_in_range t select hs, hentry]
      refine ⟨by rw [hacq], ?_, ?_, ?_, ?_⟩
      · intro _
        rw [hacq]
        have := get?_map_sortByKey (fun x : ℕ × ℤ => x.2) t.search_data select
        rw [hentry] at this
        exact this.symm
      · intro h
        simp at h
      · intro h
        simp at h
      · intro h
        simp at h
    | nearest =>
      have hlen : select < (sortByKey (fun x : ℕ × ℤ =>
          |x.2 - (if t.lock_code_prev < 0 then 128 else t.lock_code_prev)|)
          t.search_data).length := by
        rw [sortByKey_length]
        exact hs
      obtain ⟨entry, hentry⟩ : ∃ e,
          (sortByKey (fun x : ℕ × ℤ =>
            |x.2 - (if t.lock_code_prev < 0 then 128 else t.lock_code_prev)|)
            t.search_data).get? select = some e :=
        ⟨_, List.get?_eq_get hlen⟩
      have hacq : (t.acquire_lock r .nearest select).1.lock_code = entry.2 ∧
          (t.acquire_lock r .nearest select).1.lock_status = LOCK_DONE := by
        rw [Tuner.acquire_lock, if_neg hne]
        simp only [find_nearest_in_range t select hs, hentry]
        refine ⟨?_, ?_⟩ <;> trivial
      refine ⟨hacq.2, ?_, ?_, ?_, ?_⟩
      · intro h
        simp at h
      · intro h
        simp at h
      · intro _
        rw [hacq.1]
        have := get?_map_sortByKey (fun x : ℕ × ℤ =>
          |x.2 - (if t.lock_code_prev < 0 then 128 else t.lock_code_prev)|)
          t.search_data select
        rw [hentry] at this
        exact this.symm
      · intro h
        simp at h
    | most_significant =>
      have hlen : t.search_data.length - 1 - select
          < (sortByKey (fun x : ℕ × ℤ => x.2) t.search_data).length := by
        rw [sortByKey_length]
        omega
      obtain ⟨entry, hentry⟩ : ∃ e,
          (sortByKey (fun x : ℕ × ℤ => x.2) t.search_data).get?
            (t.search_data.length - 1 - select) = some e :=
        ⟨_, List.get?_eq_get hlen⟩
      have hacq : (t.acquire_lock r .most_significant select).1.lock_code = entry.2 ∧
          (t.acquire_lock r .most_significant select).1.lock_status = LOCK_DONE := by
        rw [Tuner.acquire_lock, if_neg hne]
        simp only [find_most_in_range t select hs, hentry]
        refine ⟨?_, ?_⟩ <;> trivial
      refine ⟨hacq.2, ?_, ?_, ?_, ?_⟩
      · intro h
        simp at h
      · intro _
        rw [hacq.1]
        have := get?_map_sortByKey (fun x : ℕ × ℤ => x.2) t.search_data
          (t.search_data.length - 1 - select)
        rw [hentry] at this
        exact this.symm
      · intro h
        simp at h
      · intro h
        simp at h
    | middle =>
      have hlen : select < (sortByKey (fun x : ℕ × ℤ => |x.2|) t.search_data).length := by
        rw [sortByKey_length]
        exact hs
      obtain ⟨entry, hentry⟩ : ∃ e,
          (sortByKey (fun x : ℕ × ℤ => |x.2|) t.search_data).get? select = some e :=
        ⟨_, List.get?_eq_get hlen⟩
      have hacq : (t.acquire_lock r .middle select).1.lock_code = entry.2 ∧
          (t.acquire_lock r .middle select).1.lock_status = LOCK_DONE := by
        rw [Tuner.acquire_lock, if_neg hne]
        simp only [find_middle_in_range t select hs, hentry]
        refine ⟨?_, ?_⟩ <;> trivial
      refine ⟨hacq.2, ?_, ?_, ?_, ?_⟩
      · intro h
        simp at h
      · intro h
        simp at h
      · intro h
        simp at h
      · intro _
        rw [hacq.1]
        have := get?_map_sortByKey (fun x : ℕ × ℤ => |x.2|) t.search_data select
        rw [hentry] at this
        exact this.symm

/-! ## Claim C4 — the sweep search -/

theorem lastCodeFrom_init (lam : ℚ) (init : Option ℤ) (l : List (ℚ × ℚ)) :
    lastCodeFrom lam init l = (lastCodeFrom lam none l).or init := by
  induction l generalizing init with
  | nil => simp [lastCodeFrom]
  | cons sw rest ih =>
    by_cases h : sw.1 ≤ lam ∧ lam ≤ sw.2
    · show lastCodeFrom lam (if sw.1 ≤ lam ∧ lam ≤ sw.2 then some (windowCode lam sw) else init) rest
        = (lastCodeFrom lam (if sw.1 ≤ lam ∧ lam ≤ sw.2 then some (windowCode lam sw) else none) rest).or init
      rw [if_pos h, if_pos h, ih (some (windowCode lam sw)),
        Option.or_assoc, Option.or_some]
    · show lastCodeFrom lam (if sw.1 ≤ lam ∧ lam ≤ sw.2 then some (windowCode lam sw) else init) rest
        = (lastCodeFrom lam (if sw.1 ≤ lam ∧ lam ≤ sw.2 then some (windowCode lam sw) else none) rest).or init
      rw [if_neg h, if_neg h, ih init]

theorem lastCodeFrom_isSome_iff (lam : ℚ) (l : List (ℚ × ℚ)) :
    (lastCodeFrom lam none l).isSome = true ↔
      ∃ sw ∈ l, sw.1 ≤ lam ∧ lam ≤ sw.2 := by
  induction l with
  | nil => simp [lastCodeFrom]
  | cons sw rest ih =>
    show ((lastCodeFrom lam (if sw.1 ≤ lam ∧ lam ≤ sw.2 then some (windowCode lam sw) else none) rest).isSome = true) ↔ _
    by_cases h : sw.1 ≤ lam ∧ lam ≤ sw.2
    · rw [if_pos h, lastCodeFrom_init]
      cases hr : lastCodeFrom lam none rest with
      | none => simp [h]
      | some c => simp [h]
    · rw [if_neg h, ih]
      simp only [List.mem_cons]
      constructor
      · rintro ⟨sw2, hm, hin⟩
        exact ⟨sw2, Or.inr hm, hin⟩
      · rintro ⟨sw2, hm | hm, hin⟩
        · exact absurd (hm ▸ hin) h
        · exact ⟨sw2, hm, hin⟩

theorem lastCodeFrom_const (lam : ℚ) (l : List (ℚ × ℚ)) (sw : ℚ × ℚ)
    (hall : ∀ sw2 ∈ l, sw2.1 ≤ lam ∧ lam ≤ sw2.2 → sw2 = sw) :
    lastCodeFrom lam (some (windowCode lam sw)) l = some (windowCode lam sw) := by
  induction l with
  | nil => rfl
  | cons a rest ih =>
    show lastCodeFrom lam (if a.1 ≤ lam ∧ lam ≤ a.2 then some (windowCode lam a) else some (windowCode lam sw)) rest = _
    by_cases h : a.1 ≤ lam ∧ lam ≤ a.2
    · rw [if_pos h, hall a (by simp) h]
      exact ih (fun sw2 hm hin => hall sw2 (by simp [hm]) hin)
    · rw [if_neg h]
      exact ih (fun sw2 hm hin => hall sw2 (by simp [hm]) hin)

theorem lastCodeFrom_unique (lam : ℚ) (l : List (ℚ × ℚ)) (sw : ℚ × ℚ)
    (hmem : sw ∈ l) (hin : sw.1 ≤ lam ∧ lam ≤ sw.2)
    (huniq : ∀ sw2 ∈ l, sw2.1 ≤ lam ∧ lam ≤ sw2.2 → sw2 = sw) :
    lastCodeFrom lam none l = some (windowCode lam sw) := by
  induction l with
  | nil => simp at hmem
  | cons a rest ih =>
    show lastCodeFrom lam (if a.1 ≤ lam ∧ lam ≤ a.2 then some (windowCode lam a) else none) rest = _
    by_cases h : a.1 ≤ lam ∧ lam ≤ a.2
    · rw [if_pos h, huniq a (by simp) h]
      exact lastCodeFrom_const lam rest sw
        (fun sw2 hm hin2 => huniq sw2 (by simp [hm]) hin2)
    · rw [if_neg h]
      rcases List.mem_cons.mp hmem with he | hm
      · exact absurd (he ▸ hin) h
      · exact ih hm (fun sw2 hm2 hin2 => huniq sw2 (by simp [hm2]) hin2)

theorem searchStep_fold_data (iw : ℕ × ℚ) (sweeps : List (ℚ × ℚ)) (acc : SearchAcc) :
    (sweeps.foldl (fun a2 sw => searchStep a2 iw sw) acc).data
      = match lastCodeFrom iw.2 none sweeps with
        | none => acc.data
        | some c => dictUpdate acc.data iw.1 c := by
  induction sweeps generalizing acc with
  | nil => simp [lastCodeFrom]
  | cons sw rest ih =>
    have hlcf : lastCodeFrom iw.2 none (sw :: rest)
        = lastCodeFrom iw.2
            (if sw.1 ≤ iw.2 ∧ iw.2 ≤ sw.2 then some (windowCode iw.2 sw) else none) rest := rfl
    by_cases h : sw.1 ≤ iw.2 ∧ iw.2 ≤ sw.2
    · have hstep : searchStep acc iw sw
          = ⟨setAdd acc.table (windowCode iw.2 sw),
             dictUpdate acc.data iw.1 (windowCode iw.2 sw),
             dictUpdate acc.tmp (windowCode iw.2 sw) iw.2⟩ := by
        rw [searchStep, if_pos h]
        rfl
      rw [List.foldl_cons, hstep, ih, hlcf, if_pos h,
        lastCodeFrom_init iw.2 (some (windowCode iw.2 sw)) rest]
      cases hr : lastCodeFrom iw.2 none rest with
      | none => simp [hr]
      | some c => simp [hr, dictUpdate_dictUpdate]
    · have hstep : searchStep acc iw sw = acc := by
        rw [searchStep, if_neg h]
      rw [List.foldl_cons, hstep, ih, hlcf, if_neg h]

theorem searchFold_data (sweeps : List (ℚ × ℚ)) (ps : List (ℕ × ℚ)) :
    ∀ (acc : SearchAcc),
      (∀ p ∈ ps, dictLookup acc.data p.1 = none) →
      ((ps.map Prod.fst).Nodup) →
      (ps.foldl (fun a iw => sweeps.foldl (fun a2 sw => searchStep a2 iw sw) a) acc).data
        = acc.data ++ ps.filterMap (fun p =>
            (lastCodeFrom p.2 none sweeps).map (fun c => (p.1, c))) := by
  induction ps with
  | nil =>
    intro acc _ _
    simp
  | cons p rest ih =>
    intro acc hfresh hnod
    rw [List.foldl_cons]
    have hinner := searchStep_fold_data p sweeps acc
    set acc1 := sweeps.foldl (fun a2 sw => searchStep a2 p sw) acc with hacc1
    have hfresh_p : dictLookup acc.data p.1 = none := hfresh p (by simp)
    have hnod_rest : (rest.map Prod.fst).Nodup := (List.nodup_cons.mp hnod).2
    have hp_not : p.1 ∉ rest.map Prod.fst := (List.nodup_cons.mp hnod).1
    cases hlcf : lastCodeFrom p.2 none sweeps with
    | none =>
      have hdata : acc1.data = acc.data := by
        rw [hinner, hlcf]
      rw [ih acc1 (fun q hq => by rw [hdata]; exact hfresh q (by simp [hq])) hnod_rest,
        hdata]
      simp [List.filterMap_cons, hlcf]
    | some c =>
      have hdata : acc1.data = acc.data ++ [(p.1, c)] := by
        rw [hinner, hlcf]
        exact dictUpdate_fresh acc.data p.1 c hfresh_p
      have hfresh_rest : ∀ q ∈ rest, dictLookup acc1.data q.1 = none := by
        intro q hq
        rw [hdata, dictLookup_append_left _ _ _ (hfresh q (by simp [hq]))]
        have hqp : q.1 ≠ p.1 := by
          intro he
          exact hp_not (he ▸ List.mem_map_of_mem Prod.fst hq)
        simp [dictLookup, hqp.symm]
      rw [ih acc1 hfresh_rest hnod_rest, hdata]
      simp [List.filterMap_cons, hlcf]

/-- Closed form of the `search_data` built by `Tuner.search_lock`: wave `i`
gets an entry exactly when some sweep window contains it, recording the code of
the last matching window. -/
theorem search_lock_data_eq (t : Tuner) (r : RingRxWDM) :
    (t.search_lock r).search_data
      = r.wavesIn.enum.filterMap (fun p =>
          (lastCode r p.2).map (fun c => (p.1, c))) := by
  rw [Tuner.search_lock]
  rw [if_neg (by simp [wavelengthsIsPyNone])]
  have := searchFold_data (get_sweep_range r) r.wavesIn.enum ⟨[], [], []⟩
    (fun p _ => rfl)
    (by rw [List.enum_map_fst]; exact List.nodup_range _)
  simpa [lastCode] using this

theorem search_lock_status_eq (t : Tuner) (r : RingRxWDM) :
    (t.search_lock r).search_status
      = if (t.search_lock r).search_data = [] then SEARCH_NOT_IN_RANGE
        else SEARCH_DONE := by
  rw [Tuner.search_lock]
  rw [if_neg (by simp [wavelengthsIsPyNone])]

theorem mem_enumFrom_filterMap_keys (g : ℚ → Option ℤ) (ws : List ℚ) :
    ∀ (m : ℕ) (q : ℕ × ℤ),
      q ∈ (List.enumFrom m ws).filterMap (fun p => (g p.2).map (fun c => (p.1, c))) →
      m ≤ q.1 := by
  induction ws with
  | nil =>
    intro m q hq
    simp at hq
  | cons a t ih =>
    intro m q hq
    rw [List.enumFrom] at hq
    cases hga : g a with
    | some c =>
      rw [List.filterMap_cons] at hq
      simp only [hga, Option.map_some'] at hq
      rcases List.mem_cons.mp hq with he | hm
      · rw [he]
      · exact Nat.le_of_succ_le (ih (m + 1) q hm)
    | none =>
      rw [List.filterMap_cons] at hq
      simp only [hga, Option.map_none'] at hq
      exact Nat.le_of_succ_le (ih (m + 1) q hq)

theorem dictLookup_enumFrom_filterMap (g : ℚ → Option ℤ) (ws : List ℚ) :
    ∀ (m i : ℕ),
      dictLookup ((List.enumFrom m ws).filterMap
          (fun p => (g p.2).map (fun c => (p.1, c)))) (m + i)
        = if i < ws.length then g (ws.getD i 0) else none := by
  induction ws with
  | nil =>
    intro m i
    simp [dictLookup]
  | cons a t ih =>
    intro m i
    rw [List.enumFrom, List.filterMap_cons]
    cases i with
    | zero =>
      cases hga : g a with
      | some c =>
        simp only [hga, Option.map_some']
        simp [dictLookup, hga]
      | none =>
        simp only [hga, Option.map_none']
        have hnone : dictLookup ((List.enumFrom (m + 1) t).filterMap
            (fun p => (g p.2).map (fun c => (p.1, c)))) (m + 0) = none := by
          apply dictLookup_none_of_keys
          intro q hq
          have := mem_enumFrom_filterMap_keys g t (m + 1) q hq
          omega
        rw [hnone]
        simp [hga]
    | succ j =>
      have hkey : m + (j + 1) = (m + 1) + j := by omega
      cases hga : g a with
      | some c =>
        simp only [hga, Option.map_some']
        have hne : ¬ (m = m + (j + 1)) := by omega
        rw [dictLookup, if_neg hne, hkey, ih (m + 1) j]
        simp
      | none =>
        simp only [hga, Option.map_none']
        rw [hkey, ih (m + 1) j]
        simp

/-- Entry lookup for `search_data` in terms of the last matching window. -/
theorem dictLookup_search_data (t : Tuner) (r : RingRxWDM) (i : ℕ) :
    dictLookup (t.search_lock r).search_data i
      = if i < r.wavesIn.length then lastCode r (r.wavesIn.getD i 0) else none := by
  rw [search_lock_data_eq]
  have := dictLookup_enumFrom_filterMap (lastCode r) r.wavesIn 0 i
  simpa [List.enum] using this

theorem mem_get_sweep_range_iff (r : RingRxWDM) (lo hi2 : ℚ) :
    (lo, hi2) ∈ get_sweep_range r ↔
      ∃ k : ℤ, -4 ≤ k ∧ k ≤ 4 ∧ lo = r.wavelength + k * r.fsr ∧
        hi2 = lo + r.tuning_range := by
  constructor
  · intro hm
    simp only [get_sweep_range, List.mem_cons, List.not_mem_nil, or_false,
      Prod.mk.injEq] at hm
    rcases hm with ⟨h1, h2⟩ | ⟨h1, h2⟩ | ⟨h1, h2⟩ | ⟨h1, h2⟩ | ⟨h1, h2⟩ |
      ⟨h1, h2⟩ | ⟨h1, h2⟩ | ⟨h1, h2⟩ | ⟨h1, h2⟩
    · exact ⟨-4, by norm_num, by norm_num, by rw [h1]; push_cast; ring,
        by rw [h2, h1]⟩
    · exact ⟨-3, by norm_num, by norm_num, by rw [h1]; push_cast; ring,
        by rw [h2, h1]⟩
    · exact ⟨-2, by norm_num, by norm_num, by rw [h1]; push_cast; ring,
        by rw [h2, h1]⟩
    · exact ⟨-1, by norm_num, by norm_num, by rw [h1]; push_cast; ring,
        by rw [h2, h1]⟩
    · exact ⟨0, by norm_num, by norm_num, by rw [h1]; push_cast; ring,
        by rw [h2, h1]⟩
    · exact ⟨1, by norm_num, by norm_num, by rw [h1]; push_cast; ring,
        by rw [h2, h1]⟩
    · exact ⟨2, by norm_num, by norm_num, by rw [h1]; push_cast; ring,
        by rw [h2, h1]⟩
    · exact ⟨3, by norm_num, by norm_num, by rw [h1]; push_cast; ring,
        by rw [h2, h1]⟩
    · exact ⟨4, by norm_num, by norm_num, by rw [h1]; push_cast; ring,
        by rw [h2, h1]⟩
  · rintro ⟨k, hk1, hk2, hlo, hhi⟩
    simp only [get_sweep_range, List.mem_cons, List.not_mem_nil, or_false,
      Prod.mk.injEq]
    interval_cases k
    · exact Or.inl ⟨by rw [hlo]; push_cast; ring, by rw [hhi, hlo]; push_cast; ring⟩
    · exact Or.inr (Or.inl ⟨by rw [hlo]; push_cast; ring,
        by rw [hhi, hlo]; push_cast; ring⟩)
    · exact Or.inr (Or.inr (Or.inl ⟨by rw [hlo]; push_cast; ring,
        by rw [hhi, hlo]; push_cast; ring⟩))
    · exact Or.inr (Or.inr (Or.inr (Or.inl ⟨by rw [hlo]; push_cast; ring,
        by rw [hhi, hlo]; push_cast; ring⟩)))
    · exact Or.inr (Or.inr (Or.inr (Or.inr (Or.inl ⟨by rw [hlo]; push_cast; ring,
        by rw [hhi, hlo]; push_cast; ring⟩))))
    · exact Or.inr (Or.inr (Or.inr (Or.inr (Or.inr (Or.inl ⟨by rw [hlo]; push_cast; ring,
        by rw [hhi, hlo]; push_cast; ring⟩)))))
    · exact Or.inr (Or.inr (Or.inr (Or.inr (Or.inr (Or.inr (Or.inl
        ⟨by rw [hlo]; push_cast; ring, by rw [hhi, hlo]; push_cast; ring⟩))))))
    · exact Or.inr (Or.inr (Or.inr (Or.inr (Or.inr (Or.inr (Or.inr (Or.inl
        ⟨by rw [hlo]; push_cast; ring, by rw [hhi, hlo]; push_cast; ring⟩)))))))
    · exact Or.inr (Or.inr (Or.inr (Or.inr (Or.inr (Or.inr (Or.inr (Or.inr
        ⟨by rw [hlo]; push_cast; ring, by rw [hhi, hlo]; push_cast; ring⟩)))))))

/-- The code the source records for an in-window wavelength is the Python
`int()` truncation, which is the floor for the nonnegative in-window ratio. -/
theorem windowCode_eq_floor (lam : ℚ) (sw : ℚ × ℚ) (hlo : sw.1 ≤ lam)
    (hw : 0 < sw.2 - sw.1) :
    windowCode lam sw = ⌊(lam - sw.1) / (sw.2 - sw.1) * 256⌋ := by
  have hnn : 0 ≤ (lam - sw.1) / (sw.2 - sw.1) * (VDAC_FS : ℚ) := by
    apply mul_nonneg
    · exact div_nonneg (by linarith) (le_of_lt hw)
    · norm_num [VDAC_FS]
  rw [windowCode, pyTrunc_of_nonneg _ hnn]
  norm_num [VDAC_FS]

/-- C4 (amended): in a search over a non-empty IN wave set, wavelength `i`
receives a search entry iff it lies in one of the nine sweep windows
`[center + k*FSR, center + k*FSR + tuning_range]`, `k = -4..4`; when the
containing window is unique, the recorded quantized code is the Python `int()`
truncation (the floor, not the round) of
`(wavelength - window_start) / window_width * 256`; and `search_status`
becomes DONE when at least one entry was found, NOT_IN_RANGE otherwise. -/
theorem C4_search_lock_spec (t : Tuner) (r : RingRxWDM)
    (htr : 0 < r.tuning_range) (i : ℕ) (hi : i < r.wavesIn.length) :
    (∀ lo hi2 : ℚ, (lo, hi2) ∈ get_sweep_range r ↔
      ∃ k : ℤ, -4 ≤ k ∧ k ≤ 4 ∧ lo = r.wavelength + k * r.fsr ∧
        hi2 = lo + r.tuning_range) ∧
    ((dictLookup (t.search_lock r).search_data i).isSome = true ↔
      ∃ sw ∈ get_sweep_range r,
        sw.1 ≤ r.wavesIn.getD i 0 ∧ r.wavesIn.getD i 0 ≤ sw.2) ∧
    (∀ sw ∈ get_sweep_range r,
      sw.1 ≤ r.wavesIn.getD i 0 → r.wavesIn.getD i 0 ≤ sw.2 →
      (∀ sw2 ∈ get_sweep_range r,
        sw2.1 ≤ r.wavesIn.getD i 0 → r.wavesIn.getD i 0 ≤ sw2.2 → sw2 = sw) →
      dictLookup (t.search_lock r).search_data i
        = some ⌊(r.wavesIn.getD i 0 - sw.1) / (sw.2 - sw.1) * 256⌋) ∧
    ((t.search_lock r).search_status = SEARCH_DONE ↔
      (t.search_lock r).search_data ≠ []) ∧
    ((t.search_lock r).search_status = SEARCH_DONE ∨
      (t.search_lock r).search_status = SEARCH_NOT_IN_RANGE) := by
  refine ⟨mem_get_sweep_range_iff r, ?_, ?_, ?_, ?_⟩
  · rw [dictLookup_search_data, if_pos hi]
    exact lastCodeFrom_isSome_iff _ _
  · intro sw hmem hlo2 hhi2 huniq
    rw [dictLookup_search_data, if_pos hi, lastCode,
      lastCodeFrom_unique _ _ sw hmem ⟨hlo2, hhi2⟩
        (fun sw2 hm2 hin2 => huniq sw2 hm2 hin2.1 hin2.2)]
    have hw : 0 < sw.2 - sw.1 := by
      obtain ⟨k, _, _, _, hhi⟩ := (mem_get_sweep_range_iff r sw.1 sw.2).mp (by
        cases sw
        exact hmem)
      rw [hhi]
      linarith
    rw [windowCode_eq_floor _ sw hlo2 hw]
  · rw [search_lock_status_eq]
    by_cases hd : (t.search_lock r).search_data = []
    · simp [hd, SEARCH_NOT_IN_RANGE, SEARCH_DONE]
    · simp [hd, SEARCH_DONE]
  · rw [search_lock_status_eq]
    by_cases hd : (t.search_lock r).search_data = []
    · simp [hd, SEARCH_NOT_IN_RANGE]
    · simp [hd, SEARCH_DONE]

/-- C4 counterexample: ring center 0, FSR 100, tuning range 1, one incoming
wavelength 0.999 lying only in the window [0, 1].  The code records
`int(0.999 * 256) = 255`, while the claim's `round(0.999 * 256) = 256`. -/
theorem C4_counterexample :
    dictLookup (Tuner.init.search_lock
        { wavelength := 0, fsr := 100, tuning_range := 1,
          wavesIn := [999/1000], wavesThru := [], curr_wavelength := 0 }).search_data 0
      = some 255 ∧
    round (((999/1000 : ℚ) - 0) / (1 - 0) * 256) = 256 ∧ (255 : ℤ) ≠ 256 := by
  refine ⟨by with_unfolding_all decide, ?_, by decide⟩
  have h : (((999/1000 : ℚ) - 0) / (1 - 0) * 256) = 31968 / 125 := by norm_num
  rw [h, round_eq]
  rw [show (31968 / 125 : ℚ) + 1 / 2 = 64061 / 250 by norm_num]
  rw [Int.floor_eq_iff]
  constructor <;> norm_num

theorem C4_witness :
    ((0 : ℚ) < (RingRxWDM.mk 0 100 1 [1/2] [] 0).tuning_range) ∧
    (0 < (RingRxWDM.mk 0 100 1 [1/2] [] 0).wavesIn.length) ∧
    ((Tuner.init.search_lock (RingRxWDM.mk 0 100 1 [1/2] [] 0)).search_status
        = SEARCH_DONE ∨
     (Tuner.init.search_lock (RingRxWDM.mk 0 100 1 [1/2] [] 0)).search_status
        = SEARCH_NOT_IN_RANGE) :=
  ⟨by norm_num, by decide,
   (C4_search_lock_spec Tuner.init _ (by norm_num) 0 (by decide)).2.2.2.2⟩

theorem C5_witness :
    (({ Tuner.init with search_status := SEARCH_DONE, search_data := [(0, 10), (1, 3)] } : Tuner).search_status = SEARCH_DONE) ∧
    (0 < ({ Tuner.init with search_status := SEARCH_DONE, search_data := [(0, 10), (1, 3)] } : Tuner).search_data.length) ∧
    ((({ Tuner.init with search_status := SEARCH_DONE, search_data := [(0, 10), (1, 3)] } : Tuner).acquire_lock (mkRingRxWDM 1 8 4) .least_significant 0).1.lock_status = LOCK_DONE) :=
  ⟨rfl, by decide,
   ((C5_acquire_lock_spec
      ({ Tuner.init with search_status := SEARCH_DONE, search_data := [(0, 10), (1, 3)] } : Tuner)
      (mkRingRxWDM 1 8 4) .least_significant 0).2.2.2.2 rfl (by decide)).1⟩

/-! ## Claim C7 — same-tick invisibility of upstream grabs -/

theorem getD_set {α : Type} (l : List α) (i : ℕ) (a : α) (j : ℕ) (d : α) :
    (l.set i a).getD j d = if j = i ∧ j < l.length then a else l.getD j d := by
  induction l generalizing i j with
  | nil => simp
  | cons b t ih =>
    cases i with
    | zero =>
      cases j with
      | zero => simp
      | succ j2 => simp
    | succ i2 =>
      cases j with
      | zero => simp
      | succ j2 =>
        simp only [List.set_cons_succ, List.getD_cons_succ, List.length_cons]
        rw [ih i2 j2]
        by_cases h : j2 = i2 ∧ j2 < t.length
        · rw [if_pos h, if_pos (by omega)]
        · rw [if_neg h, if_neg (by omega)]

theorem acquire_lock_ring_cases (t : Tuner) (r : RingRxWDM) (m : Mode) (s : ℕ) :
    (t.acquire_lock r m s).2 = r ∨
      ∃ w, (t.acquire_lock r m s).2 = r.acquire_lock_by_wave_idx w := by
  rw [Tuner.acquire_lock.eq_def]
  by_cases h : t.search_status ≠ SEARCH_DONE
  · rw [if_pos h]
    left
    split_ifs <;> rfl
  · rw [if_neg h]
    cases m with
    | least_significant =>
      cases hf : find_lock_to_least_significant t s with
      | none => left; simp [hf]
      | some e => right; exact ⟨e.1, by simp [hf]⟩
    | nearest =>
      cases hf : (find_lock_to_nearest t s).2 with
      | none => left; simp [hf]
      | some e => right; exact ⟨e.1, by simp [hf]⟩
    | most_significant =>
      cases hf : find_lock_to_most_significant t s with
      | none => left; simp [hf]
      | some e => right; exact ⟨e.1, by simp [hf]⟩
    | middle =>
      cases hf : find_lock_to_middle t s with
      | none => left; simp [hf]
      | some e => right; exact ⟨e.1, by simp [hf]⟩

theorem acquire_lock_wavesIn (t : Tuner) (r : RingRxWDM) (m : Mode) (s : ℕ) :
    (t.acquire_lock r m s).2.wavesIn = r.wavesIn := by
  rcases acquire_lock_ring_cases t r m s with h | ⟨w, h⟩ <;> rw [h] <;> rfl

/-- During the arbiter phase, `SearchInst` and `LockInst` never write any
slice's IN port (only `UnlockInst` refreshes one, through
`release_lock → passthrough_wave`). -/
theorem applyAOp_wavesIn_eq (st : SUT) (op : AOp)
    (hop : ∀ i, op ≠ AOp.unlock i) (j : ℕ) :
    ((applyAOp st op).slices.getD j default).ring.wavesIn
      = (st.slices.getD j default).ring.wavesIn := by
  cases op with
  | search i =>
    simp only [applyAOp]
    rw [getD_set]
    by_cases h : j = i ∧ j < st.slices.length
    · rw [if_pos h, h.1]
    · rw [if_neg h]
  | lock i m s =>
    simp only [applyAOp]
    rw [getD_set]
    by_cases h : j = i ∧ j < st.slices.length
    · rw [if_pos h, h.1]
      exact acquire_lock_wavesIn _ _ m s
    · rw [if_neg h]
  | unlock i => exact absurd rfl (hop i)

theorem applyAOp_length (st : SUT) (op : AOp) :
    (applyAOp st op).slices.length = st.slices.length := by
  cases op <;> simp [applyAOp]

theorem applyAOps_wavesIn_eq (st : SUT) (ops : List AOp)
    (hops : ∀ i, AOp.unlock i ∉ ops) (j : ℕ) :
    ((applyAOps st ops).slices.getD j default).ring.wavesIn
      = (st.slices.getD j default).ring.wavesIn := by
  induction ops generalizing st with
  | nil => rfl
  | cons op rest ih =>
    have hop : ∀ i, op ≠ AOp.unlock i := by
      intro i he
      exact hops i (by simp [he])
    have hrest : ∀ i, AOp.unlock i ∉ rest := by
      intro i hm
      exact hops i (by simp [hm])
    show ((applyAOps (applyAOp st op) rest).slices.getD j default).ring.wavesIn = _
    rw [ih (applyAOp st op) hrest, applyAOp_wavesIn_eq st op hop]

theorem rowPropagate_not_mem_of_not_mem (conn : List ℚ) (slices : List RxSlice)
    (w : ℚ) (hw : w ∉ conn) :
    ∀ k, k < slices.length →
      w ∉ ((rowPropagate conn slices).getD k default).ring.wavesIn := by
  induction slices generalizing conn with
  | nil =>
    intro k hk
    simp at hk
  | cons s rest ih =>
    intro k hk
    cases k with
    | zero =>
      simpa [rowPropagate, RingRxWDM.propagate_wave] using hw
    | succ k2 =>
      have hw2 : w ∉ filter_by_wavelength_invert conn s.ring.curr_wavelength := by
        rw [mem_filter_by_wavelength_invert]
        rintro ⟨hmem, _⟩
        exact hw hmem
      simpa [rowPropagate, RingRxWDM.propagate_wave] using
        ih (filter_by_wavelength_invert conn s.ring.curr_wavelength) hw2 k2
          (by simpa using hk)

/-- After a row propagation, the wavelength held by slice `j`'s dial is absent
from every downstream slice's IN wave set. -/
theorem rowPropagate_downstream (conn : List ℚ) (slices : List RxSlice)
    (j k : ℕ) (hjk : j < k) (hk : k < slices.length) :
    ((rowPropagate conn slices).getD j default).ring.curr_wavelength
      ∉ ((rowPropagate conn slices).getD k default).ring.wavesIn := by
  induction slices generalizing conn j k with
  | nil => simp at hk
  | cons s rest ih =>
    cases j with
    | zero =>
      obtain ⟨k2, rfl⟩ : ∃ k2, k = k2 + 1 := ⟨k - 1, by omega⟩
      have hcur : ((rowPropagate conn (s :: rest)).getD 0 default).ring.curr_wavelength
          = s.ring.curr_wavelength := by
        simp [rowPropagate, RingRxWDM.propagate_wave]
      rw [hcur]
      have hthru : s.ring.curr_wavelength
          ∉ filter_by_wavelength_invert conn s.ring.curr_wavelength := by
        rw [mem_filter_by_wavelength_invert]
        rintro ⟨_, hne⟩
        exact hne rfl
      simpa [rowPropagate, RingRxWDM.propagate_wave] using
        rowPropagate_not_mem_of_not_mem _ rest _ hthru k2 (by simpa using hk)
    | succ j2 =>
      obtain ⟨k2, rfl⟩ : ∃ k2, k = k2 + 1 := ⟨k - 1, by omega⟩
      simpa [rowPropagate] using
        ih (filter_by_wavelength_invert conn s.ring.curr_wavelength) j2 k2
          (by omega) (by simpa using hk)

/-- C7 (amended): during a tick whose arbiter phase contains no unlock, no
slice's IN wave set changes before the end-of-tick propagation — so a
downstream search in the same tick still sees any wavelength an upstream slice
just grabbed; and after the tick's propagation every upstream dial wavelength
(in particular a fresh grab) is gone from all downstream IN wave sets, i.e.
visible only from the next tick on.  (An `UnlockInst` after the grab can leak
it within the same tick — see the counterexample.) -/
theorem C7_tick_grab_visibility (st : SUT) (ops : List AOp) :
    ((∀ i, AOp.unlock i ∉ ops) → ∀ j,
      ((applyAOps st ops).slices.getD j default).ring.wavesIn
        = (st.slices.getD j default).ring.wavesIn) ∧
    (∀ j k, j < k → k < (sutTick st ops).slices.length →
      ((sutTick st ops).slices.getD j default).ring.curr_wavelength
        ∉ ((sutTick st ops).slices.getD k default).ring.wavesIn) := by
  constructor
  · intro hops j
    exact applyAOps_wavesIn_eq st ops hops j
  · intro j k hjk hk
    have hk3 : k < (applyAOps st ops).slices.length := by
      rw [← rowPropagate_length (applyAOps st ops).src (applyAOps st ops).slices]
      exact hk
    exact rowPropagate_downstream _ _ j k hjk hk3

/-- C7 counterexample: slice 0 grabs wavelength 1 during the tick; an
`UnlockInst` on slice 1 in the same arbiter phase refreshes slice 1's IN from
slice 0's already-filtered THRU, so slice 1's visible wave set loses the
grabbed wavelength within the same tick, before any propagation. -/
theorem C7_counterexample :
    ((applyAOps
        ⟨[1, 2], [⟨⟨1, 100, 1, [1, 2], [1, 2], 1000⟩, Tuner.init⟩,
                  ⟨⟨500, 100, 1, [1, 2], [1, 2], 2000⟩, Tuner.init⟩]⟩
        [.lock 0 .least_significant 0, .unlock 1, .search 1]).slices.getD 0
          default).tuner.lock_status = LOCK_DONE ∧
    ((applyAOps
        ⟨[1, 2], [⟨⟨1, 100, 1, [1, 2], [1, 2], 1000⟩, Tuner.init⟩,
                  ⟨⟨500, 100, 1, [1, 2], [1, 2], 2000⟩, Tuner.init⟩]⟩
        [.lock 0 .least_significant 0, .unlock 1, .search 1]).slices.getD 0
          default).tuner.lock_wavelength = some 1 ∧
    (1 : ℚ) ∈ (([⟨⟨1, 100, 1, [1, 2], [1, 2], 1000⟩, Tuner.init⟩,
                 ⟨⟨500, 100, 1, [1, 2], [1, 2], 2000⟩, Tuner.init⟩] : List RxSlice).getD 1
          default).ring.wavesIn ∧
    (1 : ℚ) ∉ ((applyAOps
        ⟨[1, 2], [⟨⟨1, 100, 1, [1, 2], [1, 2], 1000⟩, Tuner.init⟩,
                  ⟨⟨500, 100, 1, [1, 2], [1, 2], 2000⟩, Tuner.init⟩]⟩
        [.lock 0 .least_significant 0, .unlock 1, .search 1]).slices.getD 1
          default).ring.wavesIn := by
  with_unfolding_all decide

theorem C7_witness :
    ((∀ i, AOp.unlock i ∉ ([AOp.lock 0 Mode.least_significant 0] : List AOp)) ∧
      ((applyAOps
          ⟨[1, 2], [⟨⟨1, 100, 1, [1, 2], [1, 2], 1000⟩, Tuner.init⟩,
                    ⟨⟨500, 100, 1, [1, 2], [1, 2], 2000⟩, Tuner.init⟩]⟩
          [AOp.lock 0 Mode.least_significant 0]).slices.getD 1
            default).ring.wavesIn
        = (([⟨⟨1, 100, 1, [1, 2], [1, 2], 1000⟩, Tuner.init⟩,
             ⟨⟨500, 100, 1, [1, 2], [1, 2], 2000⟩, Tuner.init⟩] : List RxSlice).getD 1
            default).ring.wavesIn) ∧
    (0 < 1 ∧
      ((sutTick
          ⟨[1, 2], [⟨⟨1, 100, 1, [1, 2], [1, 2], 1000⟩, Tuner.init⟩,
                    ⟨⟨500, 100, 1, [1, 2], [1, 2], 2000⟩, Tuner.init⟩]⟩
          [AOp.lock 0 Mode.least_significant 0]).slices.getD 0
            default).ring.curr_wavelength
        ∉ ((sutTick
          ⟨[1, 2], [⟨⟨1, 100, 1, [1, 2], [1, 2], 1000⟩, Tuner.init⟩,
                    ⟨⟨500, 100, 1, [1, 2], [1, 2], 2000⟩, Tuner.init⟩]⟩
          [AOp.lock 0 Mode.least_significant 0]).slices.getD 1
            default).ring.wavesIn) := by
  have hops : ∀ i, AOp.unlock i ∉ ([AOp.lock 0 Mode.least_significant 0] : List AOp) := by
    intro i
    simp
  have h := C7_tick_grab_visibility
    ⟨[1, 2], [⟨⟨1, 100, 1, [1, 2], [1, 2], 1000⟩, Tuner.init⟩,
              ⟨⟨500, 100, 1, [1, 2], [1, 2], 2000⟩, Tuner.init⟩]⟩
    [AOp.lock 0 Mode.least_significant 0]
  exact ⟨⟨hops, h.1 hops 1⟩,
    ⟨by decide, h.2 0 1 (by decide) (by with_unfolding_all decide)⟩⟩

/-! ## Claim C9 — the LOCK_TABLE entry written by `LockInst` -/

theorem getD_indexOf_sort (t2 : Tuner) (h : t2.lock_code ∈ t2.search_table) :
    (sortByKey id t2.search_table).getD t2.get_lock_idx 0 = t2.lock_code ∧
    t2.get_lock_idx < t2.search_table.length := by
  have hmem : t2.lock_code ∈ sortByKey id t2.search_table :=
    (sortByKey_perm id _).mem_iff.mpr h
  have hlt : (sortByKey id t2.search_table).indexOf t2.lock_code
      < (sortByKey id t2.search_table).length :=
    List.indexOf_lt_length.mpr hmem
  constructor
  · rw [Tuner.get_lock_idx, List.getD_eq_getElem?_getD,
      List.getElem?_eq_getElem hlt, List.getElem_indexOf hlt]
    rfl
  · rw [Tuner.get_lock_idx, ← sortByKey_length id t2.search_table]
    exact hlt

/-- C9 (amended): a `LockInst` whose hardware call ends with
`lock_status == DONE` writes `{slice: get_lock_idx}` into LOCK_TABLE — the
*rank* of the tuner's lock code in the ascending-sorted search table, not the
code itself; a lock that does not complete leaves LOCK_TABLE unchanged.  The
rank points back at the code: indexing the sorted table at the stored rank
recovers `lock_code`. -/
theorem C9_lock_inst_stage_spec (st : SUT) (mem : List (ℕ × ℕ)) (i : ℕ)
    (m : Mode) (s : ℕ) :
    ((lock_inst_stage st mem i m s).1 = applyAOp st (.lock i m s)) ∧
    (((applyAOp st (.lock i m s)).slices.getD i default).tuner.lock_status ≠ LOCK_DONE →
      (lock_inst_stage st mem i m s).2 = mem) ∧
    (((applyAOp st (.lock i m s)).slices.getD i default).tuner.lock_status = LOCK_DONE →
      (lock_inst_stage st mem i m s).2
        = dictUpdate mem i
            ((applyAOp st (.lock i m s)).slices.getD i default).tuner.get_lock_idx ∧
      dictLookup (lock_inst_stage st mem i m s).2 i
        = some ((applyAOp st (.lock i m s)).slices.getD i default).tuner.get_lock_idx) ∧
    (∀ t2 : Tuner, t2.lock_code ∈ t2.search_table →
      (sortByKey id t2.search_table).getD t2.get_lock_idx 0 = t2.lock_code ∧
      t2.get_lock_idx < t2.search_table.length) := by
  refine ⟨?_, ?_, ?_, fun t2 h => getD_indexOf_sort t2 h⟩
  · simp only [lock_inst_stage]
    split_ifs <;> rfl
  · intro h
    simp only [lock_inst_stage]
    rw [if_neg h]
  · intro h
    simp only [lock_inst_stage]
    rw [if_pos h]
    exact ⟨rfl, dictLookup_dictUpdate _ _ _⟩

/-- C9 counterexample: one slice, search finds codes {0, 256}, lock
least-significant select 1 completes with lock code 256; the LOCK_TABLE entry
written is `get_lock_idx() = 1` (the rank of 256 in the sorted table), not the
lock code 256 the claim states. -/
theorem C9_counterexample :
    (((lock_inst_stage ⟨[1, 2], [⟨⟨1, 100, 1, [1, 2], [1, 2], 1⟩, Tuner.init⟩]⟩
        [] 0 .least_significant 1).1.slices.getD 0 default).tuner.lock_status
      = LOCK_DONE) ∧
    (((lock_inst_stage ⟨[1, 2], [⟨⟨1, 100, 1, [1, 2], [1, 2], 1⟩, Tuner.init⟩]⟩
        [] 0 .least_significant 1).1.slices.getD 0 default).tuner.lock_code
      = 256) ∧
    ((lock_inst_stage ⟨[1, 2], [⟨⟨1, 100, 1, [1, 2], [1, 2], 1⟩, Tuner.init⟩]⟩
        [] 0 .least_significant 1).2 = [(0, 1)]) ∧
    (dictLookup (lock_inst_stage ⟨[1, 2], [⟨⟨1, 100, 1, [1, 2], [1, 2], 1⟩, Tuner.init⟩]⟩
        [] 0 .least_significant 1).2 0 ≠ some 256) := by
  with_unfolding_all decide

theorem C9_witness :
    ((((applyAOp ⟨[1, 2], [⟨⟨1, 100, 1, [1, 2], [1, 2], 1⟩, Tuner.init⟩]⟩
          (.lock 0 .least_significant 0)).slices.getD 0 default).tuner.lock_status
        = LOCK_DONE) ∧
     ((lock_inst_stage ⟨[1, 2], [⟨⟨1, 100, 1, [1, 2], [1, 2], 1⟩, Tuner.init⟩]⟩
          [] 0 .least_significant 0).2
        = dictUpdate [] 0
            (((applyAOp ⟨[1, 2], [⟨⟨1, 100, 1, [1, 2], [1, 2], 1⟩, Tuner.init⟩]⟩
              (.lock 0 .least_significant 0)).slices.getD 0 default).tuner.get_lock_idx))) := by
  have h := C9_lock_inst_stage_spec
    ⟨[1, 2], [⟨⟨1, 100, 1, [1, 2], [1, 2], 1⟩, Tuner.init⟩]⟩ [] 0 .least_significant 0
  have hdone : (((applyAOp ⟨[1, 2], [⟨⟨1, 100, 1, [1, 2], [1, 2], 1⟩, Tuner.init⟩]⟩
      (.lock 0 .least_significant 0)).slices.getD 0 default).tuner.lock_status
      = LOCK_DONE) := by
    with_unfolding_all decide
  exact ⟨hdone, (h.2.2.1 hdone).1⟩

end WdmSim
